import Mathlib

/-!
Shallow embedding of the oxide bring-up kernel (haukened/oxide) for checking
its natural-language specification.

Conventions of the embedding:
* `u64` values are modelled as `Nat` together with explicit bounds and
  wrap-around (`% U64`) exactly where the Rust source uses wrapping,
  checked (`checked_*`) or saturating (`saturating_*`) arithmetic.
  Release-build semantics is assumed for plain `+` on `u64` (wrapping).
* Rust `Result<T, E>` becomes `Except E T`.  Functions taking `&mut self`
  that can observably mutate on error paths are modelled as returning the
  post-state alongside the `Except` result; functions that never mutate
  before a successful return are modelled as `Except E (value × state)`.
* Index-driven loops of the source are modelled either by structural
  recursion over the backing list (when the loop walks the list once and
  the translation is position-for-position), or by recursion over the
  explicit index list `List.range n` (when pushes can touch arbitrary
  slots), or with a fuel parameter large enough for the loop bound (the
  `while` loop of `coalesce_span`, and the frame-yielding loops).
* The `len` counter that `FrameRunList`/`ReservedList` maintain next to
  their slot array is derived here as `numSome` (the number of populated
  slots); the source keeps the two in lock step (starts at 0 with an
  all-`None` array, `+1` on every store into an empty slot, `-1` on every
  take of a populated slot).
-/

namespace Oxide

/-- Decidable equality for `Except`, so that concrete runs of the modelled
fallible operations can be checked by `decide`. -/
instance {ε α : Type} [DecidableEq ε] [DecidableEq α] :
    DecidableEq (Except ε α) := fun a b =>
  match a, b with
  | .error e, .error f => decidable_of_iff (e = f) (by simp)
  | .error _, .ok _ => isFalse (by simp)
  | .ok _, .error _ => isFalse (by simp)
  | .ok x, .ok y => decidable_of_iff (x = y) (by simp)

/-- Size of the u64 value space. -/
def U64 : Nat := 2 ^ 64

/-- Size of a physical memory frame in bytes (4 KiB), `frame.rs` `FRAME_SIZE`. -/
def FRAME_SIZE : Nat := 4096

/-- Model of `u64::checked_add`. -/
def checkedAdd (a b : Nat) : Option Nat :=
  if a + b < U64 then some (a + b) else none

/-- Model of `u64::checked_mul`. -/
def checkedMul (a b : Nat) : Option Nat :=
  if a * b < U64 then some (a * b) else none

/-- Model of `u64::checked_sub`. -/
def checkedSub (a b : Nat) : Option Nat :=
  if b ≤ a then some (a - b) else none

/-- Model of `u64::saturating_add`. -/
def satAdd (a b : Nat) : Nat := min (a + b) (U64 - 1)

/-- Model of `u64::saturating_mul`. -/
def satMul (a b : Nat) : Nat := min (a * b) (U64 - 1)

/-- Model of `1u64.checked_shl(shift)`: `None` iff the shift is ≥ 64 bits. -/
def checkedShl1 (shift : Nat) : Option Nat :=
  if shift < 64 then some (2 ^ shift) else none

/-- Physical frame run, `allocator.rs` `PhysFrame` (start address, frame count). -/
structure PhysFrame where
  start : Nat
  count : Nat
deriving Repr, DecidableEq

/-- Reserved byte region `[start, stop)`, `allocator.rs` `ReservedRegion`
(the source calls the upper bound `end`, a Lean keyword). -/
structure ReservedRegion where
  start : Nat
  stop : Nat
deriving Repr, DecidableEq

/-- Runtime allocator errors, `error.rs` `PhysAllocError`. -/
inductive PhysAllocError where
  | OutOfMemory
  | UnsupportedFrameCount (frames : Nat)
  | RangeOverflow (start stop : Nat)
  | RangeMisaligned (start stop : Nat)
  | StorageExhausted (capacity : Nat)
  | InvalidRegion (start stop : Nat)
deriving Repr, DecidableEq

/-- Allocator construction errors, `error.rs` `PhysAllocInitError`. -/
inductive PhysAllocInitError where
  | Empty
  | InvalidDescriptor (index : Nat) (error : PhysAllocError)
  | ReservationConflict (start stop : Nat) (error : PhysAllocError)
deriving Repr, DecidableEq

/-- Free function `span_end` of `allocator.rs`. -/
def span_end (start count : Nat) : Option Nat :=
  match checkedMul count FRAME_SIZE with
  | none => none
  | some bytes => checkedAdd start bytes

/-- Free function `align_down` of `allocator.rs` (`value & !(FRAME_SIZE-1)`). -/
def alignDown (value : Nat) : Nat := value / FRAME_SIZE * FRAME_SIZE

/-- Free function `align_up` of `allocator.rs`: checked add of the mask, with
the stated fallback `!mask = 2^64 - 4096` on overflow. -/
def alignUp (value : Nat) : Nat :=
  match checkedAdd value (FRAME_SIZE - 1) with
  | some sum => sum / FRAME_SIZE * FRAME_SIZE
  | none => U64 - FRAME_SIZE

/-- Half-open validated byte span, `allocator.rs` `FrameSpan`. -/
structure FrameSpan where
  start : Nat
  stop : Nat
deriving Repr, DecidableEq

/-- `FrameSpan::new`: requires `start < stop` and both ends frame-aligned. -/
def FrameSpan.make (start stop : Nat) : Except PhysAllocError FrameSpan :=
  if start ≥ stop then .error (.RangeMisaligned start stop)
  else if ¬ (start % FRAME_SIZE = 0 ∧ stop % FRAME_SIZE = 0) then
    .error (.RangeMisaligned start stop)
  else .ok ⟨start, stop⟩

/-- `FrameSpan::from_frame`. -/
def FrameSpan.from_frame (frame : PhysFrame) : Except PhysAllocError FrameSpan :=
  if frame.count = 0 then .error (.RangeMisaligned frame.start frame.start)
  else
    match span_end frame.start frame.count with
    | none =>
        .error (.RangeOverflow frame.start
          (satAdd frame.start (satMul frame.count FRAME_SIZE)))
    | some stop => FrameSpan.make frame.start stop

/-- `FrameSpan::merge`. -/
def FrameSpan.merge (s o : FrameSpan) : Except PhysAllocError FrameSpan :=
  FrameSpan.make (min s.start o.start) (max s.stop o.stop)

/-- `FrameSpan::overlaps`: strict byte-range overlap (abutting spans do NOT
overlap: `self.start < other.end && other.start < self.end`). -/
def FrameSpan.overlaps (s o : FrameSpan) : Bool :=
  s.start < o.stop && o.start < s.stop

/-- `FrameSpan::frame_count`. -/
def FrameSpan.frame_count (s : FrameSpan) : Except PhysAllocError Nat :=
  match checkedSub s.stop s.start with
  | none => .error (.RangeOverflow s.start s.stop)
  | some span =>
      if span % FRAME_SIZE ≠ 0 then .error (.RangeMisaligned s.start s.stop)
      else .ok (span / FRAME_SIZE)

/-- `FrameSpan::into_frame`. -/
def FrameSpan.into_frame (s : FrameSpan) : Except PhysAllocError PhysFrame :=
  match s.frame_count with
  | .error e => .error e
  | .ok count => .ok ⟨s.start, count⟩

/-- `FrameSpan::subtract`: pieces of `s` to the left and right of `removal`. -/
def FrameSpan.subtract (s removal : FrameSpan) :
    Except PhysAllocError (Option FrameSpan × Option FrameSpan) :=
  if ¬ s.overlaps removal then .ok (some s, none)
  else
    let removal_start := max s.start removal.start
    let removal_stop := min s.stop removal.stop
    match (if s.start < removal_start then
            (FrameSpan.make s.start removal_start).map some
           else .ok none : Except PhysAllocError (Option FrameSpan)) with
    | .error e => .error e
    | .ok left =>
      match (if removal_stop < s.stop then
              (FrameSpan.make removal_stop s.stop).map some
             else .ok none : Except PhysAllocError (Option FrameSpan)) with
      | .error e => .error e
      | .ok right => .ok (left, right)

/-- Number of populated slots of a slot list (derives the `len` counter). -/
def numSome (e : List (Option PhysFrame)) : Nat := (e.filterMap id).length

/-- The populated slots, in storage order; this is exactly what
`FreeRegionIter` yields. -/
def runsOf (e : List (Option PhysFrame)) : List PhysFrame := e.filterMap id

/-- Store `x` into the first empty slot, `FrameRunList::push`/`ReservedList::push`
inner loop; fails with the list capacity when every slot is full. -/
def slotPush {α : Type} (capacity : Nat) (x : α) :
    List (Option α) → Except PhysAllocError (List (Option α))
  | [] => .error (.StorageExhausted capacity)
  | none :: rest => .ok (some x :: rest)
  | some y :: rest =>
      match slotPush capacity x rest with
      | .error e => .error e
      | .ok rest1 => .ok (some y :: rest1)

/-- `FrameRunList::push` on the bare slot list (zero-count frames are dropped
silently, as in the source). -/
def listPush (frame : PhysFrame) (e : List (Option PhysFrame)) :
    Except PhysAllocError (List (Option PhysFrame)) :=
  if frame.count = 0 then .ok e else slotPush e.length frame e

/-- Backing storage for free frame runs, `allocator.rs` `FrameRunList`. -/
structure FrameRunList where
  entries : List (Option PhysFrame)
deriving Repr, DecidableEq

def FrameRunList.push (rl : FrameRunList) (frame : PhysFrame) :
    Except PhysAllocError FrameRunList :=
  match listPush frame rl.entries with
  | .error e => .error e
  | .ok e1 => .ok ⟨e1⟩

/-- Fusion of `FrameRunList::first_overlapping_index` and
`FrameRunList::take_span`: scan for the first stored run whose span overlaps
`span`; error out on the first malformed stored run encountered before it
(that is the error propagation of `first_overlapping_index`); on a hit,
return that run's span and the list with its slot emptied. -/
def extractFirstOverlap (span : FrameSpan) :
    List (Option PhysFrame) →
    Except PhysAllocError (Option (FrameSpan × List (Option PhysFrame)))
  | [] => .ok none
  | none :: rest =>
      match extractFirstOverlap span rest with
      | .error e => .error e
      | .ok none => .ok none
      | .ok (some (s, rest1)) => .ok (some (s, none :: rest1))
  | some run :: rest =>
      match FrameSpan.from_frame run with
      | .error e => .error e
      | .ok es =>
          if span.overlaps es then .ok (some (es, none :: rest))
          else
            match extractFirstOverlap span rest with
            | .error e => .error e
            | .ok none => .ok none
            | .ok (some (s, rest1)) => .ok (some (s, some run :: rest1))

/-- The `while` loop of `FrameRunList::coalesce_span`.  Each iteration takes
one populated slot out, so `numSome e + 1` units of fuel always suffice; the
fuel-exhausted branch is unreachable for the fuel used by `coalesce_span`
(see `coalesceAux_fuel_sufficient` below for the claims that need it). -/
def coalesceAux (fuel : Nat) (span : FrameSpan) (e : List (Option PhysFrame)) :
    Except PhysAllocError (FrameSpan × List (Option PhysFrame)) :=
  match fuel with
  | 0 => .error .OutOfMemory
  | fuel + 1 =>
      match extractFirstOverlap span e with
      | .error err => .error err
      | .ok none => .ok (span, e)
      | .ok (some (existing, e1)) =>
          match span.merge existing with
          | .error err => .error err
          | .ok merged => coalesceAux fuel merged e1

/-- `FrameRunList::coalesce_span`. -/
def FrameRunList.coalesce_span (rl : FrameRunList) (span : FrameSpan) :
    Except PhysAllocError (FrameSpan × FrameRunList) :=
  match coalesceAux (rl.entries.length + 1) span rl.entries with
  | .error e => .error e
  | .ok (m, e1) => .ok (m, ⟨e1⟩)

/-- `FrameRunList::push_span` on the bare slot list. -/
def pushSpanSlots (s : FrameSpan) (e : List (Option PhysFrame)) :
    Except PhysAllocError (List (Option PhysFrame)) :=
  match s.into_frame with
  | .error err => .error err
  | .ok f => listPush f e

/-- `FrameRunList::insert`: coalesce the incoming run with every stored run
its span overlaps, then push the merged span. -/
def FrameRunList.insert (rl : FrameRunList) (frame : PhysFrame) :
    Except PhysAllocError FrameRunList :=
  if frame.count = 0 then .ok rl
  else
    match FrameSpan.from_frame frame with
    | .error e => .error e
    | .ok span =>
        match rl.coalesce_span span with
        | .error e => .error e
        | .ok (merged, rl1) =>
            match pushSpanSlots merged rl1.entries with
            | .error e => .error e
            | .ok e2 => .ok ⟨e2⟩

/-- The scan of `FrameRunList::allocate_count`: first-fit over the slots in
storage order; on the first run of sufficient size either empty the slot
(exact fit) or advance its start (split), and return the allocation. -/
def allocateGo (frames : Nat) :
    List (Option PhysFrame) →
    Except PhysAllocError (Option PhysFrame × List (Option PhysFrame))
  | [] => .ok (none, [])
  | none :: rest =>
      match allocateGo frames rest with
      | .error e => .error e
      | .ok (r, rest1) => .ok (r, none :: rest1)
  | some run :: rest =>
      if run.count < frames then
        match allocateGo frames rest with
        | .error e => .error e
        | .ok (r, rest1) => .ok (r, some run :: rest1)
      else if run.count = frames then
        .ok (some ⟨run.start, frames⟩, none :: rest)
      else
        match checkedMul frames FRAME_SIZE with
        | none =>
            .error (.RangeOverflow run.start
              (satAdd run.start (satMul frames FRAME_SIZE)))
        | some advance =>
            match checkedAdd run.start advance with
            | none => .error (.RangeOverflow run.start (satAdd run.start advance))
            | some new_start =>
                .ok (some ⟨run.start, frames⟩,
                     some ⟨new_start, run.count - frames⟩ :: rest)

/-- `FrameRunList::allocate_count`. -/
def FrameRunList.allocate_count (rl : FrameRunList) (frames : Nat) :
    Except PhysAllocError (Option PhysFrame × FrameRunList) :=
  if frames = 0 then .error (.UnsupportedFrameCount frames)
  else
    match allocateGo frames rl.entries with
    | .error e => .error e
    | .ok (r, e1) => .ok (r, ⟨e1⟩)

/-- One step of the `FrameRunList::subtract_range` loop at slot `idx`:
if the stored run overlaps the removal span, empty its slot and push the
surviving left/right pieces (each lands in the first empty slot). -/
def subtractStep (removal : FrameSpan) (e : List (Option PhysFrame))
    (idx : Nat) : Except PhysAllocError (List (Option PhysFrame)) :=
  match e.get? idx with
  | none => .ok e
  | some none => .ok e
  | some (some run) =>
      match FrameSpan.from_frame run with
      | .error err => .error err
      | .ok es =>
          if ¬ es.overlaps removal then .ok e
          else
            let e1 := e.set idx none
            match es.subtract removal with
            | .error err => .error err
            | .ok (left, right) =>
                match (match left with
                       | some s => pushSpanSlots s e1
                       | none => .ok e1) with
                | .error err => .error err
                | .ok e2 =>
                    match right with
                    | some s => pushSpanSlots s e2
                    | none => .ok e2

/-- The index loop of `FrameRunList::subtract_range` (`for idx in 0..len`,
the bound taken before the loop; pushes never change the list length). -/
def subtractGo (removal : FrameSpan) :
    List Nat → List (Option PhysFrame) →
    Except PhysAllocError (List (Option PhysFrame))
  | [], e => .ok e
  | idx :: rest, e =>
      match subtractStep removal e idx with
      | .error err => .error err
      | .ok e1 => subtractGo removal rest e1

/-- `FrameRunList::subtract_range` (the source's `range_start`/`range_stop`
locals are inlined). -/
def FrameRunList.subtract_range (rl : FrameRunList) (start stop : Nat) :
    Except PhysAllocError FrameRunList :=
  if start ≥ stop then .ok rl
  else
    if alignDown start ≥ alignUp stop then .ok rl
    else
      match FrameSpan.make (alignDown start) (alignUp stop) with
      | .error e => .error e
      | .ok removal =>
          match subtractGo removal (List.range rl.entries.length) rl.entries with
          | .error e => .error e
          | .ok e1 => .ok ⟨e1⟩

/-- Backing storage for reserved regions, `allocator.rs` `ReservedList`. -/
structure ReservedList where
  entries : List (Option ReservedRegion)
deriving Repr, DecidableEq

/-- The populated reserved slots in storage order (`ReservedRegionIter`). -/
def regionsOf (l : ReservedList) : List ReservedRegion := l.entries.filterMap id

/-- `ReservedList::push`: rejects empty/inverted regions, then stores into the
first empty slot. -/
def ReservedList.push (l : ReservedList) (region : ReservedRegion) :
    Except PhysAllocError ReservedList :=
  if region.start ≥ region.stop then
    .error (.InvalidRegion region.start region.stop)
  else
    match slotPush l.entries.length region l.entries with
    | .error e => .error e
    | .ok e1 => .ok ⟨e1⟩

/-- Raw EFI memory-type value of conventional memory,
`EfiMemoryType::ConventionalMemory as u32`. -/
def CONVENTIONAL : Nat := 7

/-- Firmware memory descriptor, `oxide_abi::MemoryDescriptor`.  The `_pad`,
`virtual_start` and `attribute` fields are never consumed by the modelled
code and are omitted. -/
structure MemoryDescriptor where
  typ : Nat
  physical_start : Nat
  number_of_pages : Nat
deriving Repr, DecidableEq

/-- Memory-map snapshot, `oxide_abi::MemoryMap`.  `descriptors` is the
denotation of the raw buffer at `descriptors_phys`: the sequence of
descriptors `MemoryMapIter` reads from it, stride by stride. -/
structure MemoryMap where
  descriptors_phys : Nat
  map_size : Nat
  entry_size : Nat
  entry_version : Nat
  entry_count : Nat
  descriptors : List MemoryDescriptor
deriving Repr, DecidableEq

/-- `MemoryMapIter::new(map)` yields `entry_count` descriptors from the
buffer, in firmware order. -/
def mmIter (m : MemoryMap) : List MemoryDescriptor :=
  m.descriptors.take m.entry_count

/-- Runtime physical allocator state, `allocator.rs` `PhysicalAllocator`. -/
structure PhysicalAllocator where
  map : MemoryMap
  free : FrameRunList
  reserved : ReservedList
deriving Repr, DecidableEq

/-- The descriptor walk of `PhysicalAllocator::from_memory_map`: push every
conventional descriptor with a nonzero page count as a free run, tagging
failures with the descriptor index. -/
def fromDescsGo : Nat → List MemoryDescriptor → List (Option PhysFrame) →
    Except PhysAllocInitError (List (Option PhysFrame))
  | _, [], e => .ok e
  | idx, d :: rest, e =>
      if d.typ ≠ CONVENTIONAL then fromDescsGo (idx + 1) rest e
      else if d.number_of_pages = 0 then fromDescsGo (idx + 1) rest e
      else
        match listPush ⟨d.physical_start, d.number_of_pages⟩ e with
        | .error err => .error (.InvalidDescriptor idx err)
        | .ok e1 => fromDescsGo (idx + 1) rest e1

/-- The reservation walk of `PhysicalAllocator::from_memory_map`: record each
region and subtract its byte range from the free list, tagging failures with
the region. -/
def applyReservations : List ReservedRegion → FrameRunList → ReservedList →
    Except PhysAllocInitError (FrameRunList × ReservedList)
  | [], free, res => .ok (free, res)
  | region :: rest, free, res =>
      match res.push region with
      | .error err => .error (.ReservationConflict region.start region.stop err)
      | .ok res1 =>
          match free.subtract_range region.start region.stop with
          | .error err =>
              .error (.ReservationConflict region.start region.stop err)
          | .ok free1 => applyReservations rest free1 res1

/-- `PhysicalAllocator::from_memory_map`; the two storage slices are given by
their capacities (they arrive zeroed through `FrameRunList::new`). -/
def PhysicalAllocator.from_memory_map (map : MemoryMap)
    (reservations : List ReservedRegion) (free_slots reserved_slots : Nat) :
    Except PhysAllocInitError PhysicalAllocator :=
  if map.map_size = 0 ∨ map.entry_count = 0 then .error .Empty
  else
    match fromDescsGo 0 (mmIter map) (List.replicate free_slots none) with
    | .error e => .error e
    | .ok e =>
        if numSome e = 0 then .error .Empty
        else
          match applyReservations reservations ⟨e⟩
              ⟨List.replicate reserved_slots none⟩ with
          | .error err => .error err
          | .ok (free, res) => .ok ⟨map, free, res⟩

/-- `PhysicalAllocator::allocate_order`: request `1 << order` frames through
`checked_shl`; the post-state is returned alongside the result because the
source takes `&mut self` (on every error path of this function the state is
untouched, which the pair makes explicit). -/
def PhysicalAllocator.allocate_order (a : PhysicalAllocator) (order : Nat) :
    Except PhysAllocError PhysFrame × PhysicalAllocator :=
  match checkedShl1 order with
  | none => (.error (.UnsupportedFrameCount 0), a)
  | some count =>
      if 0 < count then
        match a.free.allocate_count count with
        | .error e => (.error e, a)
        | .ok (none, _) => (.error .OutOfMemory, a)
        | .ok (some f, free1) => (.ok f, { a with free := free1 })
      else (.error (.UnsupportedFrameCount 0), a)

/-- `PhysicalAllocator::free`: zero-count frees are silent no-ops, otherwise
insert with coalescing.  Only the successful post-state is modelled.  (Named
`freeFrame` here because the structure already has a field `free`.) -/
def PhysicalAllocator.freeFrame (a : PhysicalAllocator) (frame : PhysFrame) :
    Except PhysAllocError PhysicalAllocator :=
  if frame.count = 0 then .ok a
  else
    match a.free.insert frame with
    | .error e => .error e
    | .ok free1 => .ok { a with free := free1 }

/-- `PhysicalAllocator::reserve`: record the region, then carve it out of the
free list.  Only the successful post-state is modelled. -/
def PhysicalAllocator.reserve (a : PhysicalAllocator) (region : ReservedRegion) :
    Except PhysAllocError PhysicalAllocator :=
  match a.reserved.push region with
  | .error e => .error e
  | .ok res1 =>
      match a.free.subtract_range region.start region.stop with
      | .error e => .error e
      | .ok free1 => .ok { a with free := free1, reserved := res1 }

/-- Free runs the allocator currently tracks, in storage order
(`PhysicalAllocator::free_regions`). -/
def PhysicalAllocator.free_regions (a : PhysicalAllocator) : List PhysFrame :=
  runsOf a.free.entries

/-- Reserved regions the allocator currently tracks, in storage order
(`PhysicalAllocator::reserved_regions`). -/
def PhysicalAllocator.reserved_regions (a : PhysicalAllocator) :
    List ReservedRegion :=
  regionsOf a.reserved

/-! ## Early frame cursor (`frame.rs`) -/

/-- Early frame-allocation errors, `error.rs` `FrameAllocError`. -/
inductive FrameAllocError where
  | OutOfFrames
  | NonContiguous (expected found : Nat)
  | InvalidRequest
deriving Repr, DecidableEq

/-- `frame.rs` free function `align_up`: `(value + FRAME_SIZE - 1) & !(FRAME_SIZE - 1)`
with an UNCHECKED `+` (wrapping in release builds). -/
def alignUpWrap (value : Nat) : Nat :=
  (value + (FRAME_SIZE - 1)) % U64 / FRAME_SIZE * FRAME_SIZE

/-- `early.rs` `ReservationList::contains` on the current global reservation
list: the first region containing the address. -/
def containsAddress (resv : List ReservedRegion) (addr : Nat) :
    Option ReservedRegion :=
  resv.find? (fun r => decide (r.start ≤ addr ∧ addr < r.stop))

/-- `UsableFrameIter::aligned_reservation_end`. -/
def alignedReservationEnd (reservation_stop range_stop : Nat) : Option Nat :=
  let next_start := max (alignUpWrap reservation_stop) FRAME_SIZE
  if next_start < range_stop then some next_start else none

/-- The frames `UsableFrameIter::next_frame_from_range` produces from one
loaded range `[start, stop)`: emit the cursor and advance it by `FRAME_SIZE`
(a wrapping `+=` in the source), skipping over early reservations.  Every
loop iteration either terminates the range or advances the cursor, so the
fuel `stop / FRAME_SIZE + 2` used below suffices whenever the source loop
terminates; for inputs on which the source loop never terminates (wrapping
cursor, see claim C8) the model returns the corresponding finite prefix. -/
def framesInRange (resv : List ReservedRegion) :
    Nat → Nat → Nat → List Nat
  | 0, _, _ => []
  | fuel + 1, start, stop =>
      if start ≥ stop then []
      else
        let frame := start
        let start1 := (start + FRAME_SIZE) % U64
        match containsAddress resv frame with
        | some r =>
            match alignedReservationEnd r.stop stop with
            | some next_start => framesInRange resv fuel next_start stop
            | none => []
        | none => frame :: framesInRange resv fuel start1 stop

/-- The range `UsableFrameIter::load_next_range` derives from one descriptor:
conventional type and nonzero page count required, byte size and end
overflow-checked (overflow skips the descriptor), start aligned up and
clamped to at least `FRAME_SIZE`, empty ranges skipped. -/
def descRange (d : MemoryDescriptor) : Option (Nat × Nat) :=
  if d.typ ≠ CONVENTIONAL then none
  else if d.number_of_pages = 0 then none
  else
    match checkedMul d.number_of_pages FRAME_SIZE with
    | none => none
    | some region_size =>
        match checkedAdd d.physical_start region_size with
        | none => none
        | some stop =>
            let start := max (alignUpWrap d.physical_start) FRAME_SIZE
            if start ≥ stop then none else some (start, stop)

/-- The full frame sequence of `UsableFrameIter` over a memory map, given the
state `resv` of the global early-reservation list: the concatenation of the
per-descriptor frame lists, in firmware order. -/
def usableFrames (m : MemoryMap) (resv : List ReservedRegion) : List Nat :=
  (mmIter m).flatMap (fun d =>
    match descRange d with
    | none => []
    | some (s, e) => framesInRange resv (e / FRAME_SIZE + 2) s e)

/-- Contiguity tracker of `FrameAllocator::alloc_contiguous`,
`frame.rs` `RunTracker`. -/
structure RunTracker where
  required : Nat
  start : Option Nat
  previous : Nat
  length : Nat
deriving Repr, DecidableEq

/-- `GapTracker::record`: only the first gap is kept. -/
def recordGap (gaps : Option (Nat × Nat)) (gap : Nat × Nat) :
    Option (Nat × Nat) :=
  match gaps with
  | none => some gap
  | some g => some g

/-- `RunTracker::restart`. -/
def RunTracker.restart (t : RunTracker) (frame : Nat) : RunTracker :=
  { t with start := some frame, previous := frame, length := 1 }

/-- `RunTracker::update`: extend the run on an exactly-adjacent frame,
otherwise record the gap `(expected, frame)` and restart at `frame`. -/
def RunTracker.update (t : RunTracker) (frame : Nat)
    (gaps : Option (Nat × Nat)) : RunTracker × Option (Nat × Nat) :=
  match t.start with
  | none => (t.restart frame, gaps)
  | some _ =>
      match checkedAdd t.previous FRAME_SIZE with
      | some next =>
          if frame = next then
            ({ t with previous := frame, length := t.length + 1 }, gaps)
          else (t.restart frame, recordGap gaps (next, frame))
      | none =>
          let hinted := satAdd t.previous FRAME_SIZE
          (t.restart frame, recordGap gaps (hinted, frame))

/-- The pull loop of `FrameAllocator::alloc_contiguous` over the frame
sequence: feed frames to the tracker until the run completes; on exhaustion
report the first recorded gap, or `OutOfFrames` if none was seen. -/
def allocContiguousGo (t : RunTracker) (gaps : Option (Nat × Nat)) :
    List Nat → Except FrameAllocError Nat
  | [] =>
      match gaps with
      | some (e, f) => .error (.NonContiguous e f)
      | none => .error .OutOfFrames
  | frame :: rest =>
      let (t1, g1) := t.update frame gaps
      match t1.start with
      | some s =>
          if t1.required ≤ t1.length then .ok s
          else allocContiguousGo t1 g1 rest
      | none => allocContiguousGo t1 g1 rest

/-- `FrameAllocator::alloc_contiguous` on a fresh cursor over `m` with the
global early-reservation list in state `resv` (release-build semantics: the
`debug_assert` is compiled out and a zero request returns `InvalidRequest`). -/
def alloc_contiguous (m : MemoryMap) (resv : List ReservedRegion)
    (frame_count : Nat) : Except FrameAllocError Nat :=
  if frame_count = 0 then .error .InvalidRequest
  else allocContiguousGo ⟨frame_count, none, 0, 0⟩ none (usableFrames m resv)

/-! ## Boot validation (`boot.rs`) -/

/-- `oxide_abi::PixelFormat`. -/
inductive PixelFormat where
  | Rgb
  | Bgr
deriving Repr, DecidableEq

/-- Framebuffer record of the boot ABI, `oxide_abi::Framebuffer` (the
pixels-per-scanline field is named as `boot.rs` consumes it). -/
structure Framebuffer where
  base_address : Nat
  buffer_size : Nat
  width : Nat
  height : Nat
  pixels_per_scanline : Nat
  pixel_format : PixelFormat
deriving Repr, DecidableEq

/-- Boot-validation errors, `boot.rs` `BootValidationError`. -/
inductive BootValidationError where
  | VersionMismatch (expected found : Nat)
  | FramebufferInvalid (reason : String)
  | MemoryMapInvalid (reason : String)
deriving Repr, DecidableEq

/-- Compiled-in ABI version, `oxide_abi::ABI_VERSION`. -/
def ABI_VERSION : Nat := 1

/-- Size of the u128 value space (the widened framebuffer arithmetic). -/
def U128 : Nat := 2 ^ 128

/-- Model of `u128::saturating_mul`. -/
def satMul128 (a b : Nat) : Nat := min (a * b) (U128 - 1)

/-- `boot.rs` `validate_framebuffer`.  The required size is computed with
`u128` saturating multiplication and then truncated back to `u64`
(`required_bytes as u64`) for the comparison, exactly as in the source. -/
def validate_framebuffer (fb : Framebuffer) : Except BootValidationError Unit :=
  if fb.base_address = 0 then
    .error (.FramebufferInvalid "framebuffer base address is null")
  else if fb.buffer_size = 0 then
    .error (.FramebufferInvalid "framebuffer buffer size is zero")
  else if fb.width = 0 ∨ fb.height = 0 then
    .error (.FramebufferInvalid "framebuffer dimensions are zero")
  else if fb.pixels_per_scanline = 0 then
    .error (.FramebufferInvalid "pixels per scanline is zero")
  else if fb.pixels_per_scanline < fb.width then
    .error (.FramebufferInvalid "pixels per scanline smaller than width")
  else
    let required_bytes := satMul128 (satMul128 4 fb.pixels_per_scanline) fb.height
    if fb.buffer_size < required_bytes % U64 then
      .error (.FramebufferInvalid "framebuffer buffer smaller than required size")
    else .ok ()

/-- `size_of::<MemoryDescriptor>()` for the ABI descriptor
(u32 + u32 + u64 + u64 + u64). -/
def DESCRIPTOR_SIZE : Nat := 32

/-- `align_of::<MemoryDescriptor>()`. -/
def DESCRIPTOR_ALIGN : Nat := 8

/-- `boot.rs` `validate_memory_map`. -/
def validate_memory_map (m : MemoryMap) : Except BootValidationError Unit :=
  if m.descriptors_phys = 0 then
    .error (.MemoryMapInvalid "descriptor buffer address is null")
  else if 0 < DESCRIPTOR_ALIGN ∧ ¬ m.descriptors_phys % DESCRIPTOR_ALIGN = 0 then
    .error (.MemoryMapInvalid "descriptor buffer address not aligned")
  else if m.entry_size = 0 then
    .error (.MemoryMapInvalid "entry size is zero")
  else if m.map_size = 0 then
    .error (.MemoryMapInvalid "map size is zero")
  else if m.entry_size < DESCRIPTOR_SIZE then
    .error (.MemoryMapInvalid "entry size smaller than memory descriptor")
  else if m.entry_count = 0 then
    .error (.MemoryMapInvalid "no memory descriptors")
  else if ¬ m.map_size % m.entry_size = 0 then
    .error (.MemoryMapInvalid "map size not divisible by entry size")
  else if m.entry_count > m.map_size / m.entry_size then
    .error (.MemoryMapInvalid "entry count exceeds buffer capacity")
  else .ok ()

/-- Loader-to-kernel handoff record, `oxide_abi::BootAbi`.  The `options`,
`firmware` and `tsc_frequency_hz` fields are not consumed by validation and
are omitted. -/
structure BootAbi where
  version : Nat
  framebuffer : Framebuffer
  memory_map : MemoryMap
deriving Repr, DecidableEq

/-- `boot.rs` `validate_boot_abi`: version gate first, then the framebuffer
check, then the memory-map check. -/
def validate_boot_abi (abi : BootAbi) : Except BootValidationError Unit :=
  if abi.version ≠ ABI_VERSION then
    .error (.VersionMismatch ABI_VERSION abi.version)
  else
    match validate_framebuffer abi.framebuffer with
    | .error e => .error e
    | .ok _ => validate_memory_map abi.memory_map

/-! ## Identity paging installer (`paging.rs`) -/

/-- Paging errors, `error.rs` `PagingError`. -/
inductive PagingError where
  | OutOfFrames
  | AddressOverflow (start size : Nat)
  | UnsupportedAddress (addr : Nat)
deriving Repr, DecidableEq

def PTE_PRESENT : Nat := 1
def PTE_WRITABLE : Nat := 2
def PTE_PS : Nat := 128
def ADDR_MASK_4K : Nat := 0x000ffffffffff000
def ADDR_MASK_2M : Nat := 0x000fffffffe00000
def HUGE_PAGE_SIZE : Nat := 2 * 1024 * 1024

/-- State touched by the paging installer: the PDPT entries, the page-table
frames written through `phys_as_table_mut` (keyed by physical address; a
frame not yet written reads as it was left by `zero()`), and the frame
source (`PhysFrameAlloc`) modelled as a queue of frame addresses. -/
structure PagingModel where
  pdpt : List Nat
  tables : List (Nat × List Nat)
  frames : List Nat
deriving Repr, DecidableEq

/-- `PhysFrameAlloc::allocate_frame` for the modelled frame source. -/
def allocateFrame (st : PagingModel) : Option (Nat × PagingModel) :=
  match st.frames with
  | [] => none
  | f :: rest => some (f, { st with frames := rest })

/-- Read the page table at physical address `phys`
(`phys_as_table_mut` followed by entry reads). -/
def tableLookup (tables : List (Nat × List Nat)) (phys : Nat) : List Nat :=
  match tables.find? (fun p => p.1 == phys) with
  | some p => p.2
  | none => List.replicate 512 0

/-- Write back the page table at physical address `phys`. -/
def tableStore (tables : List (Nat × List Nat)) (phys : Nat) (t : List Nat) :
    List (Nat × List Nat) :=
  (phys, t) :: tables.filter (fun p => p.1 != phys)

/-- `paging.rs` `ensure_pd`: allocate, zero and hook in a page directory for
`PDPT[index]` when absent, then return its physical address. -/
def ensure_pd (st : PagingModel) (index : Nat) :
    Except PagingError (Nat × PagingModel) :=
  let entry := st.pdpt.getD index 0
  if entry &&& PTE_PRESENT = 0 then
    match allocateFrame st with
    | none => .error .OutOfFrames
    | some (pd_phys, st1) =>
        let st2 := { st1 with
          tables := tableStore st1.tables pd_phys (List.replicate 512 0),
          pdpt := st1.pdpt.set index
            ((pd_phys &&& ADDR_MASK_4K) ||| PTE_PRESENT ||| PTE_WRITABLE) }
        .ok (st2.pdpt.getD index 0 &&& ADDR_MASK_4K, st2)
  else .ok (entry &&& ADDR_MASK_4K, st)

/-- `paging.rs` `align_down` for a power-of-two alignment. -/
def alignDownTo (addr align : Nat) : Nat := addr / align * align

/-- `paging.rs` `align_up` for a power-of-two alignment; the `+` is unchecked
(wrapping in release builds). -/
def alignUpTo (addr align : Nat) : Nat :=
  (addr + (align - 1)) % U64 / align * align

/-- One iteration of the 2 MiB-stepping loop of `map_identity_range_2mib`,
with the jump back to the loop head abstracted as `k`.  Mutations made
before an error persist (the source writes through `&mut`), so the state is
returned alongside the result. -/
def mapRangeBody (st : PagingModel) (addr stop_aligned : Nat)
    (k : PagingModel → Nat → Except PagingError Unit × PagingModel) :
    Except PagingError Unit × PagingModel :=
  if addr ≥ stop_aligned then (.ok (), st)
  else
    let pml4_index := (addr >>> 39) &&& 0x1ff
    if pml4_index ≠ 0 then (.error (.UnsupportedAddress addr), st)
    else
      let pdpt_index := (addr >>> 30) &&& 0x1ff
      let pd_index := (addr >>> 21) &&& 0x1ff
      match ensure_pd st pdpt_index with
      | .error e => (.error e, st)
      | .ok (pd_phys, st1) =>
          let pd := tableLookup st1.tables pd_phys
          let pd1 := pd.set pd_index
            ((addr &&& ADDR_MASK_2M) ||| PTE_PRESENT ||| PTE_WRITABLE ||| PTE_PS)
          let st2 := { st1 with tables := tableStore st1.tables pd_phys pd1 }
          match checkedAdd addr HUGE_PAGE_SIZE with
          | none => (.error (.AddressOverflow addr HUGE_PAGE_SIZE), st2)
          | some addr1 => k st2 addr1

/-- The `while addr < end_aligned` loop of `map_identity_range_2mib`.  The
loop advances `addr` by `HUGE_PAGE_SIZE` per iteration with a checked add,
so `stop_aligned / HUGE_PAGE_SIZE + 1` units of fuel always suffice; the
fuel-exhausted branch is unreachable for the fuel `map_identity_range_2mib`
supplies. -/
def mapRangeGo : Nat → PagingModel → Nat → Nat →
    Except PagingError Unit × PagingModel
  | 0, st, _, _ => (.ok (), st)
  | fuel + 1, st, addr, stop_aligned =>
      mapRangeBody st addr stop_aligned
        (fun st2 addr1 => mapRangeGo fuel st2 addr1 stop_aligned)

/-- `paging.rs` `map_identity_range_2mib`: align the endpoints outward to
2 MiB and write a present+writable+PS page-directory entry for every 2 MiB
region, rejecting addresses whose PML4 index is nonzero. -/
def map_identity_range_2mib (st : PagingModel) (start stop : Nat) :
    Except PagingError Unit × PagingModel :=
  if start ≥ stop then (.ok (), st)
  else
    let start_aligned := alignDownTo start HUGE_PAGE_SIZE
    let stop_aligned := alignUpTo stop HUGE_PAGE_SIZE
    mapRangeGo (stop_aligned / HUGE_PAGE_SIZE + 1) st start_aligned stop_aligned

/-! ## Semantic notions for the allocator claims -/

/-- Byte end of a frame run (`start + count · 4096`, computed in `Nat`). -/
def fend (f : PhysFrame) : Nat := f.start + f.count * 4096

/-- Byte-interval overlap of two frame runs (the relation
`FrameSpan::overlaps` decides on their spans). -/
def frOv (f g : PhysFrame) : Prop := f.start < fend g ∧ g.start < fend f

/-- A frame run is well formed: nonempty, 4 KiB-aligned start, and a byte
end that fits in `u64` (exactly the conditions under which
`FrameSpan::from_frame` succeeds). -/
def ValidRun (f : PhysFrame) : Prop :=
  f.count ≠ 0 ∧ f.start % 4096 = 0 ∧ fend f < U64

/-- Address `a` lies inside run `f`. -/
def inRun (f : PhysFrame) (a : Nat) : Prop := f.start ≤ a ∧ a < fend f

/-- Address `a` is covered by some stored free run. -/
def coveredP (e : List (Option PhysFrame)) (a : Nat) : Prop :=
  ∃ f ∈ runsOf e, inRun f a

/-- Address `a` lies inside span `s`. -/
def inSpan (s : FrameSpan) (a : Nat) : Prop := s.start ≤ a ∧ a < s.stop

/-- No two stored runs overlap (the free-list invariant of the claims). -/
def NoOv (l : List PhysFrame) : Prop := l.Pairwise (fun f g => ¬ frOv f g)

/-- A frame run and a reserved region occupy disjoint byte intervals. -/
def frDisjointR (f : PhysFrame) (r : ReservedRegion) : Prop :=
  fend f ≤ r.start ∨ r.stop ≤ f.start

/-- The frame a validated span converts back into
(`FrameSpan::into_frame`). -/
def sframe (s : FrameSpan) : PhysFrame := ⟨s.start, (s.stop - s.start) / 4096⟩

/-- Well-formedness of the full allocator state: no two free runs overlap,
every free run is well formed, every recorded reservation is nonempty, and
every free run's byte interval is disjoint from every reservation's. -/
def Invariant (a : PhysicalAllocator) : Prop :=
  NoOv (runsOf a.free.entries) ∧
  (∀ f ∈ runsOf a.free.entries, ValidRun f) ∧
  (∀ r ∈ regionsOf a.reserved, r.start < r.stop) ∧
  (∀ f ∈ runsOf a.free.entries, ∀ r ∈ regionsOf a.reserved, frDisjointR f r)

instance (f g : PhysFrame) : Decidable (frOv f g) := by
  unfold frOv
  exact instDecidableAnd

instance (f : PhysFrame) (a : Nat) : Decidable (inRun f a) := by
  unfold inRun
  exact instDecidableAnd

instance (s : FrameSpan) (a : Nat) : Decidable (inSpan s a) := by
  unfold inSpan
  exact instDecidableAnd

instance (f : PhysFrame) : Decidable (ValidRun f) := by
  unfold ValidRun
  exact instDecidableAnd

instance (f : PhysFrame) (r : ReservedRegion) : Decidable (frDisjointR f r) := by
  unfold frDisjointR
  exact instDecidableOr

instance (e : List (Option PhysFrame)) (a : Nat) : Decidable (coveredP e a) := by
  unfold coveredP
  exact List.decidableBEx _ _

instance (l : List PhysFrame) : Decidable (NoOv l) := by
  unfold NoOv
  exact List.instDecidablePairwise _

instance (a : PhysicalAllocator) : Decidable (Invariant a) := by
  unfold Invariant
  exact instDecidableAnd

/-- The free runs the descriptor walk of `from_memory_map` pushes: one per
conventional descriptor with a nonzero page count, in firmware order. -/
def convFrames (ds : List MemoryDescriptor) : List PhysFrame :=
  ds.filterMap fun d =>
    if d.typ = CONVENTIONAL ∧ d.number_of_pages ≠ 0 then
      some ⟨d.physical_start, d.number_of_pages⟩
    else none

/-- Slot `j` of storage `e` holds no run whose byte interval meets
`[rstart, rstop)`: the per-slot postcondition of the `subtract_range`
loop. -/
def SlotClean (rstart rstop : Nat) (e : List (Option PhysFrame)) (j : Nat) :
    Prop :=
  ∀ run : PhysFrame, e.get? j = some (some run) →
    rstop ≤ run.start ∨ fend run ≤ rstart

/-! ## Frame-cursor lemmas shared by the early-allocator claims -/

lemma containsAddress_nil (addr : Nat) : containsAddress [] addr = none := rfl

/-- Definitional unfolding of one `framesInRange` step. -/
lemma framesInRange_succ (resv : List ReservedRegion) (fuel start stop : Nat) :
    framesInRange resv (fuel + 1) start stop =
      (if start ≥ stop then []
       else
         match containsAddress resv start with
         | some r =>
             (match alignedReservationEnd r.stop stop with
              | some next_start => framesInRange resv fuel next_start stop
              | none => [])
         | none =>
             start :: framesInRange resv fuel ((start + FRAME_SIZE) % U64) stop) :=
  rfl

/-- With no recorded reservations and no cursor wrap-around, the frames of a
loaded range `[start, stop)` are the ascending 4 KiB-stepped addresses from
`start` up to `stop`, provided the fuel covers the frame count. -/
lemma framesInRange_no_resv (stop : Nat) (hstop : stop + 4096 ≤ U64) :
    ∀ fuel start, (stop - start + 4095) / 4096 ≤ fuel →
    framesInRange [] fuel start stop
      = List.range' start ((stop - start + 4095) / 4096) 4096 := by
  intro fuel
  induction fuel with
  | zero =>
      intro start h
      have hc : (stop - start + 4095) / 4096 = 0 := Nat.le_zero.mp h
      rw [hc]
      rfl
  | succ fuel ih =>
      intro start h
      rw [framesInRange_succ]
      by_cases hse : start ≥ stop
      · rw [if_pos hse]
        have hc : (stop - start + 4095) / 4096 = 0 := by omega
        rw [hc]
        rfl
      · rw [if_neg hse, containsAddress_nil]
        have hU : U64 = 2 ^ 64 := rfl
        have hmod : (start + FRAME_SIZE) % U64 = start + 4096 := by
          have hF : FRAME_SIZE = 4096 := rfl
          rw [hF]
          exact Nat.mod_eq_of_lt (by rw [hU] at hstop ⊢; omega)
        rw [hmod, ih (start + 4096) (by omega)]
        have hcount : (stop - start + 4095) / 4096
            = (stop - (start + 4096) + 4095) / 4096 + 1 := by omega
        rw [hcount, List.range']

/-- The usable-frame range of a conventional descriptor with an aligned
start at or above `FRAME_SIZE` and a non-overflowing byte end. -/
lemma descRange_conv (p n : Nat) (ha : p % 4096 = 0) (hp : 4096 ≤ p)
    (hn : 1 ≤ n) (hb : p + n * 4096 < U64) :
    descRange ⟨CONVENTIONAL, p, n⟩ = some (p, p + n * 4096) := by
  have hU : U64 = 2 ^ 64 := rfl
  have hmul : checkedMul n FRAME_SIZE = some (n * 4096) := by
    unfold checkedMul
    have hF : FRAME_SIZE = 4096 := rfl
    rw [hF, if_pos (by rw [hU] at hb ⊢; omega)]
  have hadd : checkedAdd p (n * 4096) = some (p + n * 4096) := by
    unfold checkedAdd
    rw [if_pos hb]
  have haup : alignUpWrap p = p := by
    unfold alignUpWrap
    have hF : FRAME_SIZE = 4096 := rfl
    rw [hF]
    have hmod : (p + (4096 - 1)) % U64 = p + 4095 := by
      apply Nat.mod_eq_of_lt
      rw [hU] at hb ⊢
      omega
    rw [hmod]
    omega
  have hmax : max p FRAME_SIZE = p := by
    have hF : FRAME_SIZE = 4096 := rfl
    rw [hF]
    omega
  unfold descRange
  dsimp only
  rw [if_neg (by simp), if_neg (by omega), hmul]
  dsimp only
  rw [hadd]
  dsimp only
  rw [haup, hmax, if_neg (by omega)]

/-- Definitional unfolding of `allocContiguousGo` on a nonempty frame list. -/
lemma allocContiguousGo_cons (t : RunTracker) (g : Option (Nat × Nat))
    (frame : Nat) (rest : List Nat) :
    allocContiguousGo t g (frame :: rest) =
      (match t.update frame g with
       | (t1, g1) =>
           match t1.start with
           | some s =>
               if t1.required ≤ t1.length then .ok s
               else allocContiguousGo t1 g1 rest
           | none => allocContiguousGo t1 g1 rest) := rfl

/-- Definitional unfolding of `allocContiguousGo` on an exhausted list. -/
lemma allocContiguousGo_nil (t : RunTracker) (g : Option (Nat × Nat)) :
    allocContiguousGo t g [] =
      (match g with
       | some (e, f) => .error (.NonContiguous e f)
       | none => .error .OutOfFrames) := rfl

/-- Feeding a tracker that is mid-run an exactly adjacent 4 KiB-stepped
chunk extends the run without completing it (the chunk keeps the length
below the requirement) and without recording a gap. -/
lemma allocContiguousGo_chunk (required s0 : Nat) (m : Nat) :
    ∀ q l (g : Option (Nat × Nat)) (rest : List Nat),
    q + m * 4096 < U64 →
    l + m < required →
    allocContiguousGo ⟨required, some s0, q, l⟩ g
        (List.range' (q + 4096) m 4096 ++ rest) =
      allocContiguousGo ⟨required, some s0, q + m * 4096, l + m⟩ g rest := by
  induction m with
  | zero =>
      intro q l g rest _ _
      simp [List.range']
  | succ m ih =>
      intro q l g rest hq hl
      have hU : U64 = 2 ^ 64 := rfl
      rw [List.range', List.cons_append, allocContiguousGo_cons]
      have hadd : checkedAdd q FRAME_SIZE = some (q + 4096) := by
        unfold checkedAdd
        have hF : FRAME_SIZE = 4096 := rfl
        rw [hF, if_pos (by rw [hU] at hq ⊢; omega)]
      have hupd : RunTracker.update ⟨required, some s0, q, l⟩ (q + 4096) g
          = (⟨required, some s0, q + 4096, l + 1⟩, g) := by
        unfold RunTracker.update
        rw [hadd]
        simp
      rw [hupd]
      have hnotreq : ¬ required ≤ l + 1 := by omega
      simp only [hnotreq, if_false]
      have harg : q + 4096 + 4096 = q + 4096 + 4096 := rfl
      have := ih (q + 4096) (l + 1) g rest (by omega) (by omega)
      rw [show q + 4096 + m * 4096 = q + (m + 1) * 4096 by ring] at this
      rw [show l + 1 + m = l + (m + 1) by ring] at this
      rw [show (q + 4096) + 4096 = q + 4096 + 4096 from rfl] at this
      exact this

/-! ## Checked-arithmetic and span lemmas -/

lemma checkedAdd_ok {a b c : Nat} (h : checkedAdd a b = some c) :
    c = a + b ∧ a + b < U64 := by
  unfold checkedAdd at h
  by_cases hc : a + b < U64
  · rw [if_pos hc] at h
    injection h with h1
    exact ⟨h1.symm, hc⟩
  · rw [if_neg hc] at h
    exact absurd h (by simp)

lemma checkedAdd_some {a b : Nat} (h : a + b < U64) :
    checkedAdd a b = some (a + b) := by
  unfold checkedAdd
  rw [if_pos h]

lemma checkedMul_ok {a b c : Nat} (h : checkedMul a b = some c) :
    c = a * b ∧ a * b < U64 := by
  unfold checkedMul at h
  by_cases hc : a * b < U64
  · rw [if_pos hc] at h
    injection h with h1
    exact ⟨h1.symm, hc⟩
  · rw [if_neg hc] at h
    exact absurd h (by simp)

lemma checkedMul_some {a b : Nat} (h : a * b < U64) :
    checkedMul a b = some (a * b) := by
  unfold checkedMul
  rw [if_pos h]

lemma span_end_ok {start count stop : Nat} (h : span_end start count = some stop) :
    stop = start + count * 4096 ∧ start + count * 4096 < U64 := by
  unfold span_end at h
  split at h
  · exact absurd h (by simp)
  · next bytes hmul =>
      obtain ⟨hb, _⟩ := checkedMul_ok hmul
      obtain ⟨hc, hlt⟩ := checkedAdd_ok h
      subst hb
      have hF : FRAME_SIZE = 4096 := rfl
      rw [hF] at hc hlt
      exact ⟨hc, hlt⟩

lemma span_end_some {start count : Nat} (h : start + count * 4096 < U64) :
    span_end start count = some (start + count * 4096) := by
  have hF : FRAME_SIZE = 4096 := rfl
  unfold span_end
  rw [checkedMul_some (by rw [hF]; omega)]
  dsimp only
  rw [hF]
  exact checkedAdd_some h

lemma make_ok {start stop : Nat} (h1 : start < stop) (h2 : start % 4096 = 0)
    (h3 : stop % 4096 = 0) :
    FrameSpan.make start stop = .ok ⟨start, stop⟩ := by
  unfold FrameSpan.make
  have hF : FRAME_SIZE = 4096 := rfl
  rw [if_neg (by omega), if_neg (by rw [hF]; exact not_not_intro ⟨h2, h3⟩)]

lemma make_ok_inv {start stop : Nat} {s : FrameSpan}
    (h : FrameSpan.make start stop = .ok s) :
    s = ⟨start, stop⟩ ∧ start < stop ∧ start % 4096 = 0 ∧ stop % 4096 = 0 := by
  unfold FrameSpan.make at h
  split at h
  · exact absurd h (by simp)
  · split at h
    · exact absurd h (by simp)
    · next hge hal =>
        injection h with h1
        have hF : FRAME_SIZE = 4096 := rfl
        rw [hF] at hal
        push_neg at hal
        exact ⟨h1.symm, by omega, hal.1, hal.2⟩

lemma fend_pos {f : PhysFrame} (h : f.count ≠ 0) : f.start < fend f := by
  unfold fend
  omega

lemma from_frame_ok_of_valid (f : PhysFrame) (h : ValidRun f) :
    FrameSpan.from_frame f = .ok ⟨f.start, fend f⟩ := by
  obtain ⟨hc, ha, hb⟩ := h
  unfold fend at hb
  unfold FrameSpan.from_frame
  rw [if_neg hc, span_end_some hb]
  exact make_ok (by omega) ha (by omega)

lemma valid_of_from_frame_ok {f : PhysFrame} {s : FrameSpan}
    (h : FrameSpan.from_frame f = .ok s) :
    ValidRun f ∧ s = ⟨f.start, fend f⟩ := by
  unfold FrameSpan.from_frame at h
  split at h
  · exact absurd h (by simp)
  · next hc =>
      split at h
      · exact absurd h (by simp)
      · next stop hsp =>
          obtain ⟨hstop, hlt⟩ := span_end_ok hsp
          obtain ⟨hs, _, ha, _⟩ := make_ok_inv h
          subst hstop
          exact ⟨⟨hc, ha, by unfold fend; omega⟩, by rw [hs]; rfl⟩

/-- Boolean span overlap unfolded to arithmetic. -/
lemma overlaps_iff {s t : FrameSpan} :
    s.overlaps t = true ↔ s.start < t.stop ∧ t.start < s.stop := by
  unfold FrameSpan.overlaps
  simp

lemma overlaps_false_iff {s t : FrameSpan} :
    s.overlaps t = false ↔ ¬ (s.start < t.stop ∧ t.start < s.stop) := by
  unfold FrameSpan.overlaps
  simp

/-- Merging two overlapping aligned spans yields the interval join, whose
points are exactly the union of the two. -/
lemma merge_ok {s t : FrameSpan} (hov : s.overlaps t = true)
    (hs1 : s.start % 4096 = 0) (hs2 : s.stop % 4096 = 0)
    (ht1 : t.start % 4096 = 0) (ht2 : t.stop % 4096 = 0) :
    s.merge t = .ok ⟨min s.start t.start, max s.stop t.stop⟩ := by
  rw [overlaps_iff] at hov
  unfold FrameSpan.merge
  exact make_ok (by omega) (by omega) (by omega)

lemma inSpan_join {s t : FrameSpan} (hov : s.overlaps t = true) (a : Nat) :
    inSpan ⟨min s.start t.start, max s.stop t.stop⟩ a ↔
      inSpan s a ∨ inSpan t a := by
  rw [overlaps_iff] at hov
  unfold inSpan
  dsimp only
  omega

/-- `into_frame` on a validated span. -/
lemma into_frame_ok {s : FrameSpan} (h1 : s.start < s.stop)
    (h2 : s.start % 4096 = 0) (h3 : s.stop % 4096 = 0) :
    s.into_frame = .ok (sframe s) ∧ (sframe s).count ≠ 0 ∧
      fend (sframe s) = s.stop ∧ (sframe s).start = s.start := by
  have hcnt : (s.stop - s.start) / 4096 ≠ 0 := by omega
  have hfe : fend (sframe s) = s.stop := by
    unfold fend sframe
    dsimp only
    omega
  refine ⟨?_, hcnt, hfe, rfl⟩
  unfold FrameSpan.into_frame FrameSpan.frame_count checkedSub
  rw [if_pos (by omega)]
  dsimp only
  have hF : FRAME_SIZE = 4096 := rfl
  rw [hF, if_neg (by omega)]
  rfl

/-! ## Slot-list lemmas -/

lemma slotPush_nil {α : Type} (cap : Nat) (x : α) :
    slotPush cap x [] = .error (.StorageExhausted cap) := rfl

lemma slotPush_cons_none {α : Type} (cap : Nat) (x : α) (rest : List (Option α)) :
    slotPush cap x (none :: rest) = .ok (some x :: rest) := rfl

lemma slotPush_cons_some {α : Type} (cap : Nat) (x y : α) (rest : List (Option α)) :
    slotPush cap x (some y :: rest) =
      (match slotPush cap x rest with
       | .error e => .error e
       | .ok rest1 => .ok (some y :: rest1)) := rfl

/-- A successful `slotPush` fills the first empty slot: the list splits
around it. -/
lemma slotPush_ok {α : Type} (cap : Nat) (x : α) :
    ∀ (e e1 : List (Option α)), slotPush cap x e = .ok e1 →
    ∃ l1 l2, e = l1 ++ none :: l2 ∧ e1 = l1 ++ some x :: l2 := by
  intro e
  induction e with
  | nil => intro e1 h; rw [slotPush_nil] at h; exact absurd h (by simp)
  | cons o rest ih =>
      intro e1 h
      match o with
      | none =>
          rw [slotPush_cons_none] at h
          injection h with h2
          exact ⟨[], rest, rfl, by rw [← h2]; rfl⟩
      | some y =>
          rw [slotPush_cons_some] at h
          split at h
          · exact absurd h (by simp)
          · next rest1 hrec =>
              injection h with h2
              obtain ⟨l1, l2, he, he1⟩ := ih rest1 hrec
              exact ⟨some y :: l1, l2, by rw [he]; rfl, by rw [← h2, he1]; rfl⟩

/-- A successful `listPush` of a nonempty run fills the first empty slot. -/
lemma listPush_ok {f : PhysFrame} {e e1 : List (Option PhysFrame)}
    (hc : f.count ≠ 0) (h : listPush f e = .ok e1) :
    ∃ l1 l2, e = l1 ++ none :: l2 ∧ e1 = l1 ++ some f :: l2 := by
  unfold listPush at h
  rw [if_neg hc] at h
  exact slotPush_ok e.length f e e1 h

lemma runsOf_append (l1 l2 : List (Option PhysFrame)) :
    runsOf (l1 ++ l2) = runsOf l1 ++ runsOf l2 := by
  simp [runsOf, List.filterMap_append]

lemma runsOf_cons_none (l : List (Option PhysFrame)) :
    runsOf (none :: l) = runsOf l := rfl

lemma runsOf_cons_some (f : PhysFrame) (l : List (Option PhysFrame)) :
    runsOf (some f :: l) = f :: runsOf l := rfl

lemma coveredP_append (l1 l2 : List (Option PhysFrame)) (a : Nat) :
    coveredP (l1 ++ l2) a ↔ coveredP l1 a ∨ coveredP l2 a := by
  unfold coveredP
  rw [runsOf_append]
  constructor
  · rintro ⟨f, hf, hin⟩
    rcases List.mem_append.mp hf with h | h
    · exact Or.inl ⟨f, h, hin⟩
    · exact Or.inr ⟨f, h, hin⟩
  · rintro (⟨f, hf, hin⟩ | ⟨f, hf, hin⟩)
    · exact ⟨f, List.mem_append.mpr (Or.inl hf), hin⟩
    · exact ⟨f, List.mem_append.mpr (Or.inr hf), hin⟩

lemma coveredP_cons_none (l : List (Option PhysFrame)) (a : Nat) :
    coveredP (none :: l) a ↔ coveredP l a := Iff.rfl

lemma coveredP_cons_some (f : PhysFrame) (l : List (Option PhysFrame)) (a : Nat) :
    coveredP (some f :: l) a ↔ inRun f a ∨ coveredP l a := by
  unfold coveredP
  rw [runsOf_cons_some]
  constructor
  · rintro ⟨g, hg, hin⟩
    rcases List.mem_cons.mp hg with h | h
    · exact Or.inl (h ▸ hin)
    · exact Or.inr ⟨g, h, hin⟩
  · rintro (hin | ⟨g, hg, hin⟩)
    · exact ⟨f, List.mem_cons_self _ _, hin⟩
    · exact ⟨g, List.mem_cons_of_mem _ hg, hin⟩

/-! ## Coalescing lemmas -/

lemma extract_nil (span : FrameSpan) :
    extractFirstOverlap span [] = .ok none := rfl

lemma extract_cons_none (span : FrameSpan) (rest : List (Option PhysFrame)) :
    extractFirstOverlap span (none :: rest) =
      (match extractFirstOverlap span rest with
       | .error e => .error e
       | .ok none => .ok none
       | .ok (some (s, rest1)) => .ok (some (s, none :: rest1))) := rfl

lemma extract_cons_some (span : FrameSpan) (run : PhysFrame)
    (rest : List (Option PhysFrame)) :
    extractFirstOverlap span (some run :: rest) =
      (match FrameSpan.from_frame run with
       | .error e => .error e
       | .ok es =>
           if span.overlaps es then .ok (some (es, none :: rest))
           else
             match extractFirstOverlap span rest with
             | .error e => .error e
             | .ok none => .ok none
             | .ok (some (s, rest1)) => .ok (some (s, some run :: rest1))) := rfl

/-- A successful extraction splits the list at the first stored run whose
span overlaps the probe. -/
lemma extract_ok_some (span : FrameSpan) :
    ∀ (e : List (Option PhysFrame)) (s : FrameSpan)
      (e1 : List (Option PhysFrame)),
    extractFirstOverlap span e = .ok (some (s, e1)) →
    ∃ l1 l2 run, e = l1 ++ some run :: l2 ∧ e1 = l1 ++ none :: l2 ∧
      FrameSpan.from_frame run = .ok s ∧ span.overlaps s = true := by
  intro e
  induction e with
  | nil => intro s e1 h; rw [extract_nil] at h; exact absurd h (by simp)
  | cons o rest ih =>
      intro s e1 h
      match o with
      | none =>
          rw [extract_cons_none] at h
          split at h
          · exact absurd h (by simp)
          · exact absurd h (by simp)
          · next s2 rest1 hrec =>
              injection h with h2
              injection h2 with h3
              injection h3 with h4 h5
              subst h4
              obtain ⟨l1, l2, run, he, he1, hff, hov⟩ := ih _ rest1 hrec
              exact ⟨none :: l1, l2, run, by rw [he]; rfl,
                by rw [← h5, he1]; rfl, hff, hov⟩
      | some run =>
          rw [extract_cons_some] at h
          split at h
          · exact absurd h (by simp)
          · next es hff =>
              split at h
              · next hov =>
                  injection h with h2
                  injection h2 with h3
                  injection h3 with h4 h5
                  subst h4
                  exact ⟨[], rest, run, rfl, h5.symm, hff, hov⟩
              · next hov =>
                  split at h
                  · exact absurd h (by simp)
                  · exact absurd h (by simp)
                  · next s2 rest1 hrec =>
                      injection h with h2
                      injection h2 with h3
                      injection h3 with h4 h5
                      subst h4
                      obtain ⟨l1, l2, run2, he, he1, hff2, hov2⟩ :=
                        ih _ rest1 hrec
                      exact ⟨some run :: l1, l2, run2, by rw [he]; rfl,
                        by rw [← h5, he1]; rfl, hff2, hov2⟩

/-- A scan that finds nothing certifies that every stored run is well
formed and its span does not overlap the probe. -/
lemma extract_ok_none (span : FrameSpan) :
    ∀ (e : List (Option PhysFrame)),
    extractFirstOverlap span e = .ok none →
    ∀ run ∈ runsOf e, ∃ s, FrameSpan.from_frame run = .ok s ∧
      span.overlaps s = false := by
  intro e
  induction e with
  | nil => intro _ run hrun; exact absurd hrun (by simp [runsOf])
  | cons o rest ih =>
      intro h run hrun
      match o with
      | none =>
          rw [extract_cons_none] at h
          split at h
          · exact absurd h (by simp)
          · next hrec => exact ih hrec run (by rwa [runsOf_cons_none] at hrun)
          · exact absurd h (by simp)
      | some run2 =>
          rw [extract_cons_some] at h
          split at h
          · exact absurd h (by simp)
          · next es hff =>
              split at h
              · exact absurd h (by simp)
              · next hov =>
                  rw [runsOf_cons_some] at hrun
                  rcases List.mem_cons.mp hrun with heq | hmem
                  · subst heq
                    exact ⟨es, hff, Bool.not_eq_true _ ▸ (by simpa using hov)⟩
                  · split at h
                    · exact absurd h (by simp)
                    · next hrec => exact ih hrec run hmem
                    · exact absurd h (by simp)

lemma coalesceAux_zero (span : FrameSpan) (e : List (Option PhysFrame)) :
    coalesceAux 0 span e = .error .OutOfMemory := rfl

lemma coalesceAux_succ (fuel : Nat) (span : FrameSpan)
    (e : List (Option PhysFrame)) :
    coalesceAux (fuel + 1) span e =
      (match extractFirstOverlap span e with
       | .error err => .error err
       | .ok none => .ok (span, e)
       | .ok (some (existing, e1)) =>
           match span.merge existing with
           | .error err => .error err
           | .ok merged => coalesceAux fuel merged e1) := rfl

/-- Full specification of a successful coalescing loop: the surviving slots
are a sub-sequence of the original ones, the merged span is an aligned
nonempty interval extending the probe, no surviving run overlaps it, and
the covered bytes together with the merged span's bytes are exactly the
original covered bytes together with the probe's. -/
lemma coalesce_spec :
    ∀ (fuel : Nat) (span : FrameSpan) (e : List (Option PhysFrame))
      (m : FrameSpan) (e1 : List (Option PhysFrame)),
    coalesceAux fuel span e = .ok (m, e1) →
    span.start % 4096 = 0 → span.stop % 4096 = 0 → span.start < span.stop →
    span.stop < U64 →
    (runsOf e1).Sublist (runsOf e) ∧
    (m.start % 4096 = 0 ∧ m.stop % 4096 = 0 ∧ m.start < m.stop ∧
      m.stop < U64) ∧
    m.start ≤ span.start ∧ span.stop ≤ m.stop ∧
    (∀ run ∈ runsOf e1, ∃ s, FrameSpan.from_frame run = .ok s ∧
      m.overlaps s = false) ∧
    (∀ a, (coveredP e1 a ∨ inSpan m a) ↔ (coveredP e a ∨ inSpan span a)) := by
  intro fuel
  induction fuel with
  | zero =>
      intro span e m e1 h
      rw [coalesceAux_zero] at h
      exact absurd h (by simp)
  | succ fuel ih =>
      intro span e m e1 h ha1 ha2 hlt hu
      rw [coalesceAux_succ] at h
      split at h
      · exact absurd h (by simp)
      · next hex =>
          injection h with h2
          injection h2 with h3 h4
          subst h3
          subst h4
          refine ⟨List.Sublist.refl _, ⟨ha1, ha2, hlt, hu⟩,
            le_refl _, le_refl _, extract_ok_none _ _ hex, fun a => Iff.rfl⟩
      · next existing e2 hex =>
          split at h
          · exact absurd h (by simp)
          · next merged hm =>
              obtain ⟨l1, l2, run, he, he2, hff, hov⟩ :=
                extract_ok_some span e existing e2 hex
              obtain ⟨hvrun, hes⟩ := valid_of_from_frame_ok hff
              subst hes
              unfold FrameSpan.merge at hm
              obtain ⟨hmeq, hmlt, hmal1, hmal2⟩ := make_ok_inv hm
              subst hmeq
              have hrun_stop : fend run < U64 := hvrun.2.2
              obtain ⟨hsub, hmprops, hms, hmt, hnov, hcov⟩ :=
                ih _ e2 m e1 h (by dsimp only at hmal1 ⊢; exact hmal1)
                  (by dsimp only at hmal2 ⊢; exact hmal2) hmlt
                  (by dsimp only; omega)
              have hesub : (runsOf e2).Sublist (runsOf e) := by
                rw [he, he2, runsOf_append, runsOf_append, runsOf_cons_none,
                  runsOf_cons_some]
                exact (List.sublist_cons_self _ _).append_left _
              have hovp := overlaps_iff.mp hov
              dsimp only at hovp hms hmt
              refine ⟨hsub.trans hesub, hmprops, by omega, by omega, hnov, ?_⟩
              intro a
              rw [hcov a]
              dsimp only
              have hjoin : inSpan ⟨min span.start run.start,
                  max span.stop (fend run)⟩ a ↔ inSpan span a ∨ inRun run a := by
                have hj := inSpan_join hov a
                dsimp only at hj
                exact hj
              have hce : coveredP e a ↔ (coveredP l1 a ∨ coveredP l2 a) ∨
                  inRun run a := by
                rw [he, coveredP_append, coveredP_cons_some]
                tauto
              have hce2 : coveredP e2 a ↔ coveredP l1 a ∨ coveredP l2 a := by
                rw [he2, coveredP_append, coveredP_cons_none]
              rw [hce, hce2, hjoin]
              generalize coveredP l1 a = A
              generalize coveredP l2 a = B
              generalize inRun run a = C
              generalize inSpan span a = D
              constructor
              · rintro ((h | h) | h | h)
                · exact Or.inl (Or.inl (Or.inl h))
                · exact Or.inl (Or.inl (Or.inr h))
                · exact Or.inr h
                · exact Or.inl (Or.inr h)
              · rintro (((h | h) | h) | h)
                · exact Or.inl (Or.inl h)
                · exact Or.inl (Or.inr h)
                · exact Or.inr (Or.inr h)
                · exact Or.inr (Or.inl h)

lemma not_frOv_swap {f g : PhysFrame} (h : ¬ frOv f g) : ¬ frOv g f := by
  unfold frOv at h ⊢
  intro hc
  exact h ⟨hc.2, hc.1⟩

lemma coveredP_of_perm {e1 e2 : List (Option PhysFrame)}
    (hp : (runsOf e1).Perm (runsOf e2)) (a : Nat) :
    coveredP e1 a ↔ coveredP e2 a := by
  unfold coveredP
  constructor
  · rintro ⟨f, hf, h⟩
    exact ⟨f, hp.mem_iff.mp hf, h⟩
  · rintro ⟨f, hf, h⟩
    exact ⟨f, hp.mem_iff.mpr hf, h⟩

/-- Master lemma for `FrameRunList::insert` with a nonempty run: the freed
run is well formed, the covered bytes grow by exactly the run's bytes,
pairwise non-overlap of the stored runs is preserved, and every stored run
of the result is well formed. -/
lemma insert_ok {rl rl1 : FrameRunList} {f : PhysFrame}
    (hc : f.count ≠ 0) (h : rl.insert f = .ok rl1) :
    ValidRun f ∧
    (∀ a, coveredP rl1.entries a ↔ (coveredP rl.entries a ∨ inRun f a)) ∧
    (NoOv (runsOf rl.entries) → NoOv (runsOf rl1.entries)) ∧
    (∀ run ∈ runsOf rl1.entries, ValidRun run) := by
  unfold FrameRunList.insert at h
  rw [if_neg hc] at h
  split at h
  · exact absurd h (by simp)
  · next span hff =>
      obtain ⟨hvf, hsp⟩ := valid_of_from_frame_ok hff
      subst hsp
      split at h
      · exact absurd h (by simp)
      · next m rl2 hco =>
          unfold FrameRunList.coalesce_span at hco
          split at hco
          · exact absurd hco (by simp)
          · next m0 e0 hrec =>
              injection hco with hco2
              injection hco2 with hco3 hco4
              subst hco3
              subst hco4
              obtain ⟨hsub, ⟨hm1, hm2, hm3, hm4⟩, hms, hmt, hnov, hcov⟩ :=
                coalesce_spec _ _ _ _ _ hrec hvf.2.1
                  (by have := hvf.2.1; dsimp only; unfold fend; omega)
                  (fend_pos hvf.1) hvf.2.2
              obtain ⟨hif, hifc, hife, hifs⟩ := into_frame_ok hm3 hm1 hm2
              split at h
              · exact absurd h (by simp)
              · next e2 hpush =>
                  injection h with h2
                  unfold pushSpanSlots at hpush
                  rw [hif] at hpush
                  obtain ⟨l1, l2, he0, he2⟩ := listPush_ok hifc hpush
                  have he0x : e0 = l1 ++ none :: l2 := he0
                  subst he0x
                  have hrl1 : rl1.entries = e2 := by rw [← h2]
                  have hinr : ∀ a, inRun (sframe m0) a ↔ inSpan m0 a := by
                    intro a
                    unfold inRun inSpan
                    rw [hife, hifs]
                  have hperm : (runsOf e2).Perm
                      (sframe m0 :: runsOf (l1 ++ none :: l2)) := by
                    rw [he2, runsOf_append, runsOf_append, runsOf_cons_some,
                      runsOf_cons_none]
                    exact List.perm_middle
                  have hvm : ValidRun (sframe m0) := ⟨hifc,
                    by rw [hifs]; exact hm1, by rw [hife]; exact hm4⟩
                  have hval0 : ∀ run ∈ runsOf (l1 ++ none :: l2),
                      ValidRun run := by
                    intro run hrun
                    obtain ⟨s, hffr, _⟩ := hnov run hrun
                    exact (valid_of_from_frame_ok hffr).1
                  refine ⟨hvf, ?_, ?_, ?_⟩
                  · intro a
                    rw [hrl1]
                    have hcL : coveredP e2 a ↔ coveredP l1 a ∨
                        inRun (sframe m0) a ∨ coveredP l2 a := by
                      rw [he2, coveredP_append, coveredP_cons_some]
                    have hcR : coveredP (l1 ++ none :: l2) a ↔
                        coveredP l1 a ∨ coveredP l2 a := by
                      rw [coveredP_append, coveredP_cons_none]
                    have hco2 := hcov a
                    rw [hcR] at hco2
                    rw [hcL, hinr a]
                    have hspan : inSpan ⟨f.start, fend f⟩ a ↔ inRun f a :=
                      Iff.rfl
                    rw [hspan] at hco2
                    constructor
                    · rintro (h3 | h3 | h3)
                      · exact hco2.mp (Or.inl (Or.inl h3))
                      · exact hco2.mp (Or.inr h3)
                      · exact hco2.mp (Or.inl (Or.inr h3))
                    · intro h3
                      rcases hco2.mpr h3 with (h4 | h4) | h4
                      · exact Or.inl h4
                      · exact Or.inr (Or.inr h4)
                      · exact Or.inr (Or.inl h4)
                  · intro hno
                    rw [hrl1]
                    have hno0 : NoOv (runsOf (l1 ++ none :: l2)) :=
                      List.Pairwise.sublist hsub hno
                    have hnew : ∀ g ∈ runsOf (l1 ++ none :: l2),
                        ¬ frOv (sframe m0) g := by
                      intro g hg
                      obtain ⟨s, hffr, hovf⟩ := hnov g hg
                      obtain ⟨hvg, hseq⟩ := valid_of_from_frame_ok hffr
                      subst hseq
                      rw [overlaps_false_iff] at hovf
                      dsimp only at hovf
                      unfold frOv
                      rw [hife, hifs]
                      exact hovf
                    have hcons : NoOv (sframe m0 :: runsOf (l1 ++ none :: l2)) :=
                      List.Pairwise.cons hnew hno0
                    exact (List.Perm.pairwise_iff not_frOv_swap hperm).mpr hcons
                  · intro run hrun
                    rw [hrl1] at hrun
                    rcases List.mem_cons.mp (hperm.mem_iff.mp hrun) with h3 | h3
                    · exact h3 ▸ hvm
                    · exact hval0 run h3

/-! ## Allocation lemmas -/

lemma allocateGo_nil (frames : Nat) : allocateGo frames [] = .ok (none, []) := rfl

lemma allocateGo_cons_none (frames : Nat) (rest : List (Option PhysFrame)) :
    allocateGo frames (none :: rest) =
      (match allocateGo frames rest with
       | .error e => .error e
       | .ok (r, rest1) => .ok (r, none :: rest1)) := rfl

lemma allocateGo_cons_some (frames : Nat) (run : PhysFrame)
    (rest : List (Option PhysFrame)) :
    allocateGo frames (some run :: rest) =
      (if run.count < frames then
        match allocateGo frames rest with
        | .error e => .error e
        | .ok (r, rest1) => .ok (r, some run :: rest1)
      else if run.count = frames then
        .ok (some ⟨run.start, frames⟩, none :: rest)
      else
        match checkedMul frames FRAME_SIZE with
        | none =>
            .error (.RangeOverflow run.start
              (satAdd run.start (satMul frames FRAME_SIZE)))
        | some advance =>
            match checkedAdd run.start advance with
            | none => .error (.RangeOverflow run.start (satAdd run.start advance))
            | some new_start =>
                .ok (some ⟨run.start, frames⟩,
                     some ⟨new_start, run.count - frames⟩ :: rest)) := rfl

/-- A successful first-fit allocation splits the list at the first run of
sufficient size; its slot is either emptied (exact fit) or advanced. -/
lemma allocateGo_ok_some (frames : Nat) :
    ∀ (e : List (Option PhysFrame)) (f : PhysFrame)
      (e1 : List (Option PhysFrame)),
    allocateGo frames e = .ok (some f, e1) →
    ∃ l1 l2 run, e = l1 ++ some run :: l2 ∧ frames ≤ run.count ∧
      f = ⟨run.start, frames⟩ ∧
      ((run.count = frames ∧ e1 = l1 ++ none :: l2) ∨
       (frames < run.count ∧ run.start + frames * 4096 < U64 ∧
        e1 = l1 ++ some ⟨run.start + frames * 4096, run.count - frames⟩ :: l2)) := by
  intro e
  induction e with
  | nil =>
      intro f e1 h
      rw [allocateGo_nil] at h
      injection h with h2
      injection h2 with h3 h4
      exact absurd h3 (by simp)
  | cons o rest ih =>
      intro f e1 h
      match o with
      | none =>
          rw [allocateGo_cons_none] at h
          split at h
          · exact absurd h (by simp)
          · next r rest1 hrec =>
              injection h with h2
              injection h2 with h3 h4
              subst h3
              obtain ⟨l1, l2, run, he, hge, hf, hcase⟩ := ih f rest1 hrec
              refine ⟨none :: l1, l2, run, by rw [he]; rfl, hge, hf, ?_⟩
              rcases hcase with ⟨hc1, hc2⟩ | ⟨hc1, hc2, hc3⟩
              · exact Or.inl ⟨hc1, by rw [← h4, hc2]; rfl⟩
              · exact Or.inr ⟨hc1, hc2, by rw [← h4, hc3]; rfl⟩
      | some run =>
          rw [allocateGo_cons_some] at h
          split at h
          · next hlt =>
              split at h
              · exact absurd h (by simp)
              · next r rest1 hrec =>
                  injection h with h2
                  injection h2 with h3 h4
                  subst h3
                  obtain ⟨l1, l2, run2, he, hge, hf, hcase⟩ := ih f rest1 hrec
                  refine ⟨some run :: l1, l2, run2, by rw [he]; rfl, hge, hf, ?_⟩
                  rcases hcase with ⟨hc1, hc2⟩ | ⟨hc1, hc2, hc3⟩
                  · exact Or.inl ⟨hc1, by rw [← h4, hc2]; rfl⟩
                  · exact Or.inr ⟨hc1, hc2, by rw [← h4, hc3]; rfl⟩
          · next hnlt =>
              split at h
              · next heq =>
                  injection h with h2
                  injection h2 with h3 h4
                  injection h3 with h5
                  exact ⟨[], rest, run, rfl, by omega, h5.symm,
                    Or.inl ⟨heq, h4.symm⟩⟩
              · next hne =>
                  split at h
                  · exact absurd h (by simp)
                  · next advance hmul =>
                      split at h
                      · exact absurd h (by simp)
                      · next new_start hadd =>
                          injection h with h2
                          injection h2 with h3 h4
                          injection h3 with h5
                          obtain ⟨hadv, hadvlt⟩ := checkedMul_ok hmul
                          have hF : FRAME_SIZE = 4096 := rfl
                          rw [hF] at hadv
                          subst hadv
                          obtain ⟨hns, hnslt⟩ := checkedAdd_ok hadd
                          subst hns
                          exact ⟨[], rest, run, rfl, by omega, h5.symm,
                            Or.inr ⟨by omega, hnslt, h4.symm⟩⟩

lemma frOv_mono {g run newrun : PhysFrame}
    (hs : run.start ≤ newrun.start) (he : fend newrun ≤ fend run)
    (h : frOv g newrun) : frOv g run := by
  unfold frOv at h ⊢
  omega

/-- Master lemma for a successful `FrameRunList::allocate_count` that hands
out a run. -/
lemma allocate_count_spec {rl rl1 : FrameRunList} {frames : Nat} {f : PhysFrame}
    (h : rl.allocate_count frames = .ok (some f, rl1)) :
    f.count = frames ∧ frames ≠ 0 ∧
    (∀ a, coveredP rl1.entries a → coveredP rl.entries a) ∧
    ((∀ run ∈ runsOf rl.entries, ValidRun run) →
      ValidRun f ∧ ∀ run ∈ runsOf rl1.entries, ValidRun run) ∧
    (NoOv (runsOf rl.entries) →
      (∀ a, inRun f a → coveredP rl.entries a) ∧
      (∀ a, coveredP rl1.entries a ↔ (coveredP rl.entries a ∧ ¬ inRun f a)) ∧
      NoOv (runsOf rl1.entries)) := by
  unfold FrameRunList.allocate_count at h
  split at h
  · exact absurd h (by simp)
  · next hfr =>
      split at h
      · exact absurd h (by simp)
      · next r e1 hgo =>
          injection h with h2
          injection h2 with h3 h4
          subst h3
          obtain ⟨l1, l2, run, he, hge, hf, hcase⟩ :=
            allocateGo_ok_some frames rl.entries f e1 hgo
          have he1 : rl1.entries = e1 := by rw [← h4]
          subst hf
          have hfc : PhysFrame.count ⟨run.start, frames⟩ = frames := rfl
          have hin_split : ∀ a, inRun run a ↔
              (inRun ⟨run.start, frames⟩ a ∨
               (run.start + frames * 4096 ≤ a ∧ a < fend run)) := by
            intro a
            unfold inRun fend
            dsimp only
            omega
          refine ⟨rfl, hfr, ?_, ?_, ?_⟩
          · intro a hcov
            rw [he1] at hcov
            rw [he, coveredP_append, coveredP_cons_some]
            rcases hcase with ⟨hc1, hc2⟩ | ⟨hc1, hc2, hc3⟩
            · rw [hc2, coveredP_append, coveredP_cons_none] at hcov
              rcases hcov with h6 | h6
              · exact Or.inl h6
              · exact Or.inr (Or.inr h6)
            · rw [hc3, coveredP_append, coveredP_cons_some] at hcov
              rcases hcov with h6 | h6 | h6
              · exact Or.inl h6
              · refine Or.inr (Or.inl ?_)
                unfold inRun fend at h6 ⊢
                dsimp only at h6 ⊢
                omega
              · exact Or.inr (Or.inr h6)
          · intro hval
            have hvr : ValidRun run := hval run (by
              rw [he, runsOf_append, runsOf_cons_some]
              exact List.mem_append.mpr (Or.inr (List.mem_cons_self _ _)))
            have hvf : ValidRun ⟨run.start, frames⟩ := by
              unfold ValidRun fend at hvr ⊢
              dsimp only at hvr ⊢
              exact ⟨hfr, hvr.2.1, by omega⟩
            refine ⟨hvf, ?_⟩
            intro g hg
            rw [he1] at hg
            rcases hcase with ⟨hc1, hc2⟩ | ⟨hc1, hc2, hc3⟩
            · rw [hc2, runsOf_append, runsOf_cons_none] at hg
              refine hval g ?_
              rw [he, runsOf_append, runsOf_cons_some]
              rcases List.mem_append.mp hg with h6 | h6
              · exact List.mem_append.mpr (Or.inl h6)
              · exact List.mem_append.mpr (Or.inr (List.mem_cons_of_mem _ h6))
            · rw [hc3, runsOf_append, runsOf_cons_some] at hg
              rcases List.mem_append.mp hg with h6 | h6
              · exact hval g (by
                  rw [he, runsOf_append, runsOf_cons_some]
                  exact List.mem_append.mpr (Or.inl h6))
              · rcases List.mem_cons.mp h6 with h7 | h7
                · subst h7
                  unfold ValidRun fend at hvr ⊢
                  dsimp only at hvr ⊢
                  exact ⟨by omega, by omega, by omega⟩
                · exact hval g (by
                    rw [he, runsOf_append, runsOf_cons_some]
                    exact List.mem_append.mpr
                      (Or.inr (List.mem_cons_of_mem _ h7)))
          · intro hno
            have hno2 : NoOv (runsOf l1 ++ run :: runsOf l2) := by
              rw [he, runsOf_append, runsOf_cons_some] at hno
              exact hno
            rcases List.pairwise_append.mp hno2 with ⟨hp1, hp2c, hp12⟩
            rcases List.pairwise_cons.mp hp2c with ⟨hrun_l2, hp2⟩
            have hkey2 : ∀ (g : PhysFrame) (a : Nat),
                g ∈ runsOf l1 ∨ g ∈ runsOf l2 → inRun g a → inRun run a →
                False := by
              intro g a hgm hga har
              have hov : frOv g run := by
                unfold frOv
                unfold inRun at hga har
                omega
              rcases hgm with h7 | h7
              · exact hp12 g h7 run (List.mem_cons_self _ _) hov
              · exact hrun_l2 g h7 ⟨hov.2, hov.1⟩
            have hsubrun : ∀ a, inRun ⟨run.start, frames⟩ a → inRun run a := by
              intro a hf
              unfold inRun fend at hf ⊢
              dsimp only at hf ⊢
              omega
            refine ⟨?_, ?_, ?_⟩
            · intro a ha
              rw [he, coveredP_append, coveredP_cons_some]
              exact Or.inr (Or.inl (hsubrun a ha))
            · intro a
              rw [he1, he, coveredP_append, coveredP_cons_some]
              rcases hcase with ⟨hc1, hc2⟩ | ⟨hc1, hc2, hc3⟩
              · rw [hc2, coveredP_append, coveredP_cons_none]
                constructor
                · rintro (h6 | h6)
                  · refine ⟨Or.inl h6, fun hf => ?_⟩
                    obtain ⟨g, hgm, hga⟩ := h6
                    exact hkey2 g a (Or.inl hgm) hga (hsubrun a hf)
                  · refine ⟨Or.inr (Or.inr h6), fun hf => ?_⟩
                    obtain ⟨g, hgm, hga⟩ := h6
                    exact hkey2 g a (Or.inr hgm) hga (hsubrun a hf)
                · rintro ⟨(h6 | h6 | h6), hnf⟩
                  · exact Or.inl h6
                  · refine absurd ?_ hnf
                    unfold inRun fend at h6 ⊢
                    dsimp only at h6 ⊢
                    omega
                  · exact Or.inr h6
              · rw [hc3, coveredP_append, coveredP_cons_some]
                constructor
                · rintro (h6 | h6 | h6)
                  · refine ⟨Or.inl h6, fun hf => ?_⟩
                    obtain ⟨g, hgm, hga⟩ := h6
                    exact hkey2 g a (Or.inl hgm) hga (hsubrun a hf)
                  · refine ⟨Or.inr (Or.inl ?_), fun hf => ?_⟩
                    · unfold inRun fend at h6 ⊢
                      dsimp only at h6 ⊢
                      omega
                    · unfold inRun fend at h6 hf
                      dsimp only at h6 hf
                      omega
                  · refine ⟨Or.inr (Or.inr h6), fun hf => ?_⟩
                    obtain ⟨g, hgm, hga⟩ := h6
                    exact hkey2 g a (Or.inr hgm) hga (hsubrun a hf)
                · rintro ⟨(h6 | h6 | h6), hnf⟩
                  · exact Or.inl h6
                  · refine Or.inr (Or.inl ?_)
                    unfold inRun fend at h6 hnf ⊢
                    dsimp only at h6 hnf ⊢
                    omega
                  · exact Or.inr (Or.inr h6)
            · rw [he1]
              rcases hcase with ⟨hc1, hc2⟩ | ⟨hc1, hc2, hc3⟩
              · rw [hc2, runsOf_append, runsOf_cons_none]
                refine List.Pairwise.sublist ?_ hno2
                exact (List.sublist_cons_self _ _).append_left _
              · rw [hc3, runsOf_append, runsOf_cons_some]
                have hmono : ∀ g, frOv g ⟨run.start + frames * 4096,
                    run.count - frames⟩ → frOv g run := by
                  intro g
                  refine frOv_mono (by dsimp only; omega) ?_
                  unfold fend
                  dsimp only
                  omega
                refine List.pairwise_append.mpr
                  ⟨hp1, List.pairwise_cons.mpr ⟨?_, hp2⟩, ?_⟩
                · intro g hg hov
                  exact hrun_l2 g hg
                    ((fun h8 => ⟨h8.2, h8.1⟩) (hmono g ⟨hov.2, hov.1⟩))
                · intro x hx b hb
                  rcases List.mem_cons.mp hb with h7 | h7
                  · subst h7
                    intro hov
                    exact hp12 x hx run (List.mem_cons_self _ _) (hmono x hov)
                  · exact hp12 x hx b (List.mem_cons_of_mem _ h7)

/-! ## Range-subtraction and construction lemmas (for the state invariant) -/

lemma fend_le_of_valid {g : PhysFrame} (h : ValidRun g) :
    fend g ≤ U64 - 4096 := by
  obtain ⟨hc, ha, hb⟩ := h
  have hU : U64 = 18446744073709551616 := rfl
  unfold fend at hb ⊢
  rw [hU] at hb ⊢
  omega

lemma alignDown_le (v : Nat) : alignDown v ≤ v := Nat.div_mul_le_self v FRAME_SIZE

lemma alignDown_aligned (v : Nat) : alignDown v % 4096 = 0 := by
  unfold alignDown
  have hF : FRAME_SIZE = 4096 := rfl
  rw [hF]
  exact Nat.mul_mod_left _ _

lemma alignUp_no_overflow {v : Nat} (h : v + 4095 < U64) :
    alignUp v = (v + 4095) / 4096 * 4096 := by
  unfold alignUp checkedAdd
  have hF : FRAME_SIZE = 4096 := rfl
  rw [hF]
  rw [if_pos (show v + (4096 - 1) < U64 by omega)]

lemma alignUp_overflow {v : Nat} (h : ¬ v + 4095 < U64) :
    alignUp v = U64 - 4096 := by
  unfold alignUp checkedAdd
  have hF : FRAME_SIZE = 4096 := rfl
  rw [hF]
  rw [if_neg (show ¬ v + (4096 - 1) < U64 by omega)]

lemma alignUp_aligned (v : Nat) : alignUp v % 4096 = 0 := by
  by_cases h : v + 4095 < U64
  · rw [alignUp_no_overflow h]
    exact Nat.mul_mod_left _ _
  · rw [alignUp_overflow h]
    have hU : U64 = 18446744073709551616 := rfl
    rw [hU]

lemma alignUp_bound (v : Nat) : alignUp v ≤ U64 - 4096 := by
  by_cases h : v + 4095 < U64
  · rw [alignUp_no_overflow h]
    have h1 : (v + 4095) / 4096 * 4096 ≤ v + 4095 := Nat.div_mul_le_self _ _
    have h2 : (v + 4095) / 4096 * 4096 % 4096 = 0 := Nat.mul_mod_left _ _
    have hU : U64 = 18446744073709551616 := rfl
    rw [hU] at h ⊢
    omega
  · rw [alignUp_overflow h]

lemma alignUp_ge {v : Nat} (h : v + 4095 < U64) : v ≤ alignUp v := by
  rw [alignUp_no_overflow h]
  have h1 := Nat.div_add_mod (v + 4095) 4096
  have h2 := Nat.mod_lt (v + 4095) (show 0 < 4096 by omega)
  omega

/-- A run's byte interval avoids a reserved region's as soon as each of its
bytes does (intervals are contiguous, so no straddling is possible). -/
lemma frDisjointR_of_bytes {g : PhysFrame} {r : ReservedRegion}
    (hg : g.count ≠ 0) (hr : r.start < r.stop)
    (h : ∀ a, inRun g a → ¬ (r.start ≤ a ∧ a < r.stop)) : frDisjointR g r := by
  unfold frDisjointR
  by_contra hc
  push_neg at hc
  obtain ⟨hc1, hc2⟩ := hc
  rcases Nat.le_total g.start r.start with hle | hle
  · have h3 := h r.start ⟨hle, hc1⟩
    omega
  · have h3 := h g.start ⟨Nat.le_refl _, fend_pos hg⟩
    unfold inRun at h3
    omega

lemma bytes_of_frDisjointR {f : PhysFrame} {r : ReservedRegion}
    (h : frDisjointR f r) : ∀ a, inRun f a → ¬ (r.start ≤ a ∧ a < r.stop) := by
  intro a hin hc
  unfold frDisjointR at h
  unfold inRun at hin
  omega

/-- Interval disjointness from every old reservation survives any operation
that only shrinks the covered byte set and keeps runs well formed. -/
lemma disjoint_of_covered_sub {eOld eNew : List (Option PhysFrame)}
    (hvalNew : ∀ g ∈ runsOf eNew, ValidRun g)
    (hcov : ∀ a, coveredP eNew a → coveredP eOld a) {r : ReservedRegion}
    (hr : r.start < r.stop)
    (hold : ∀ f ∈ runsOf eOld, frDisjointR f r) :
    ∀ g ∈ runsOf eNew, frDisjointR g r := by
  intro g hg
  refine frDisjointR_of_bytes (hvalNew g hg).1 hr ?_
  intro a hin
  obtain ⟨f, hf, hfin⟩ := hcov a ⟨g, hg, hin⟩
  exact bytes_of_frDisjointR (hold f hf) a hfin

lemma runsOf_mem_of_get? {e : List (Option PhysFrame)} {idx : Nat}
    {run : PhysFrame} (h : e.get? idx = some (some run)) : run ∈ runsOf e :=
  List.mem_filterMap.mpr ⟨some run, List.get?_mem h, rfl⟩

lemma get?_of_runsOf_mem {e : List (Option PhysFrame)} {run : PhysFrame}
    (h : run ∈ runsOf e) :
    ∃ j, j < e.length ∧ e.get? j = some (some run) := by
  obtain ⟨o, ho, hid⟩ := List.mem_filterMap.mp h
  obtain ⟨j, hj⟩ := List.mem_iff_get?.mp ho
  refine ⟨j, ?_, by rw [hj, show o = some run from hid]⟩
  obtain ⟨hlt, _⟩ := List.get?_eq_some.mp hj
  exact hlt

lemma noOv_of_perm {L M : List PhysFrame} (hp : L.Perm M) (h : NoOv M) :
    NoOv L := by
  unfold NoOv at h ⊢
  exact (hp.pairwise_iff fun h' => not_frOv_swap h').mpr h

lemma noOv_cons {M : List PhysFrame} {x : PhysFrame} (hM : NoOv M)
    (hx : ∀ g ∈ M, ¬ frOv g x) : NoOv (x :: M) := by
  unfold NoOv at hM ⊢
  rw [List.pairwise_cons]
  exact ⟨fun g hg => not_frOv_swap (hx g hg), hM⟩

lemma noOv_middle_elim {A B : List PhysFrame} {x : PhysFrame}
    (h : NoOv (A ++ x :: B)) :
    NoOv (A ++ B) ∧ ∀ g ∈ A ++ B, ¬ frOv g x := by
  unfold NoOv at h ⊢
  rw [List.pairwise_append] at h
  obtain ⟨hA, hxB, hsep⟩ := h
  rw [List.pairwise_cons] at hxB
  obtain ⟨hxall, hB⟩ := hxB
  constructor
  · rw [List.pairwise_append]
    exact ⟨hA, hB, fun a ha b hb => hsep a ha b (List.mem_cons_of_mem _ hb)⟩
  · intro g hg
    rcases List.mem_append.mp hg with hg | hg
    · exact hsep g hg x (List.mem_cons_self _ _)
    · exact not_frOv_swap (hxall g hg)

/-- Positional view of a successful hit of `List.get?`: the list splits at the
index, and setting that slot rewrites just the middle element. -/
lemma slot_decomp {α : Type} :
    ∀ {e : List (Option α)} {idx : Nat} {o : Option α},
    e.get? idx = some o →
    e = e.take idx ++ o :: e.drop (idx + 1) ∧
    e.set idx none = e.take idx ++ none :: e.drop (idx + 1) := by
  intro e
  induction e with
  | nil => intro idx o h; cases idx <;> exact absurd h (by simp)
  | cons a rest ih =>
      intro idx o h
      match idx with
      | 0 =>
          injection h with h1
          subst h1
          exact ⟨rfl, rfl⟩
      | idx + 1 =>
          obtain ⟨h1, h2⟩ := ih h
          constructor
          · show a :: rest = a :: (rest.take idx ++ o :: rest.drop (idx + 1))
            rw [← h1]
          · show a :: rest.set idx none =
              a :: (rest.take idx ++ none :: rest.drop (idx + 1))
            rw [← h2]

/-- Setting a slot to `none` leaves every other slot unchanged. -/
lemma set_get? {α : Type} :
    ∀ (e : List (Option α)) (idx j : Nat),
    (e.set idx none).get? j = e.get? j ∨ (e.set idx none).get? j = some none := by
  intro e
  induction e with
  | nil => intro idx j; exact Or.inl rfl
  | cons a rest ih =>
      intro idx j
      match idx, j with
      | 0, 0 => exact Or.inr rfl
      | 0, j + 1 => exact Or.inl rfl
      | idx + 1, 0 => exact Or.inl rfl
      | idx + 1, j + 1 => exact ih idx j

/-- Any slot of `l1 ++ x :: l2` is either the matching slot of
`l1 ++ y :: l2` or holds `x` itself. -/
lemma get?_middle {α : Type} :
    ∀ (l1 : List (Option α)) (l2 : List (Option α)) (x y : Option α) (j : Nat),
    (l1 ++ x :: l2).get? j = (l1 ++ y :: l2).get? j ∨
      (l1 ++ x :: l2).get? j = some x := by
  intro l1
  induction l1 with
  | nil =>
      intro l2 x y j
      match j with
      | 0 => exact Or.inr rfl
      | j + 1 => exact Or.inl rfl
  | cons a rest ih =>
      intro l2 x y j
      match j with
      | 0 => exact Or.inl rfl
      | j + 1 => exact ih l2 x y j

lemma set_get?_self {α : Type} :
    ∀ (e : List (Option α)) (idx : Nat), idx < e.length →
    (e.set idx none).get? idx = some none := by
  intro e
  induction e with
  | nil => intro idx h; exact absurd h (by simp)
  | cons a rest ih =>
      intro idx h
      match idx with
      | 0 => rfl
      | idx + 1 => exact ih idx (by simpa using h)

/-- Characterisation of `FrameSpan::subtract` on overlapping aligned spans:
the surviving pieces are the strict left and right overhangs. -/
lemma subtract_ok_char {es removal : FrameSpan} (hov : es.overlaps removal = true)
    (ha1 : es.start % 4096 = 0) (ha2 : es.stop % 4096 = 0)
    (hb1 : removal.start % 4096 = 0) (hb2 : removal.stop % 4096 = 0) :
    es.subtract removal = .ok
      (if es.start < removal.start then some ⟨es.start, removal.start⟩ else none,
       if removal.stop < es.stop then some ⟨removal.stop, es.stop⟩ else none) := by
  unfold FrameSpan.subtract
  rw [if_neg (not_not_intro hov)]
  dsimp only
  by_cases hL : es.start < removal.start
  · rw [Nat.max_eq_right (Nat.le_of_lt hL)]
    simp only [if_pos hL]
    rw [make_ok hL ha1 hb1]
    by_cases hR : removal.stop < es.stop
    · rw [Nat.min_eq_right (Nat.le_of_lt hR)]
      simp only [if_pos hR]
      rw [make_ok hR hb2 ha2]
      rfl
    · rw [Nat.min_eq_left (Nat.le_of_not_lt hR)]
      simp only [if_neg hR, if_neg (lt_irrefl es.stop)]
      rfl
  · rw [Nat.max_eq_left (Nat.le_of_not_lt hL)]
    simp only [if_neg hL, if_neg (lt_irrefl es.start)]
    by_cases hR : removal.stop < es.stop
    · rw [Nat.min_eq_right (Nat.le_of_lt hR)]
      simp only [if_pos hR]
      rw [make_ok hR hb2 ha2]
      rfl
    · rw [Nat.min_eq_left (Nat.le_of_not_lt hR)]
      simp only [if_neg hR, if_neg (lt_irrefl es.stop)]

/-- Master lemma for `FrameRunList::push_span` of a well-formed span. -/
lemma pushSpan_spec {s : FrameSpan} {e e1 : List (Option PhysFrame)}
    (h : pushSpanSlots s e = .ok e1) (h1 : s.start < s.stop)
    (h2 : s.start % 4096 = 0) (h3 : s.stop % 4096 = 0) (h4 : s.stop < U64) :
    e1.length = e.length ∧
    ValidRun (sframe s) ∧
    (runsOf e1).Perm (sframe s :: runsOf e) ∧
    (∀ a, coveredP e1 a ↔ (inSpan s a ∨ coveredP e a)) ∧
    (∀ j, e1.get? j = e.get? j ∨ e1.get? j = some (some (sframe s))) := by
  obtain ⟨hif, hc, hfe, hst⟩ := into_frame_ok h1 h2 h3
  unfold pushSpanSlots at h
  rw [hif] at h
  obtain ⟨l1, l2, he, he1⟩ := listPush_ok hc h
  subst he
  subst he1
  have hvalf : ValidRun (sframe s) :=
    ⟨hc, by rw [hst]; exact h2, by rw [hfe]; exact h4⟩
  refine ⟨by simp, hvalf, ?_, ?_, ?_⟩
  · rw [runsOf_append, runsOf_cons_some, runsOf_append, runsOf_cons_none]
    exact List.perm_middle
  · intro a
    rw [coveredP_append, coveredP_cons_some, coveredP_append, coveredP_cons_none]
    have hin : inRun (sframe s) a ↔ inSpan s a := by
      unfold inRun inSpan
      rw [hst, hfe]
    constructor
    · rintro (hx | hx | hx)
      · exact Or.inr (Or.inl hx)
      · exact Or.inl (hin.mp hx)
      · exact Or.inr (Or.inr hx)
    · rintro (hx | hx | hx)
      · exact Or.inr (Or.inl (hin.mpr hx))
      · exact Or.inl hx
      · exact Or.inr (Or.inr hx)
  · intro j
    exact get?_middle l1 l2 (some (sframe s)) none j

/-- One step of the `subtract_range` loop: the storage keeps its length, the
stored runs stay pairwise disjoint and well formed, the covered bytes can
only shrink, clean slots stay clean, and the processed slot becomes clean. -/
lemma subtractStep_spec {removal : FrameSpan} {e e1 : List (Option PhysFrame)}
    {idx : Nat} (h : subtractStep removal e idx = .ok e1)
    (hr1 : removal.start % 4096 = 0) (hr2 : removal.stop % 4096 = 0)
    (hr3 : removal.start < removal.stop) (hr4 : removal.stop < U64)
    (hno : NoOv (runsOf e)) (hval : ∀ g ∈ runsOf e, ValidRun g) :
    e1.length = e.length ∧ NoOv (runsOf e1) ∧
    (∀ g ∈ runsOf e1, ValidRun g) ∧
    (∀ a, coveredP e1 a → coveredP e a) ∧
    (∀ j, SlotClean removal.start removal.stop e j →
      SlotClean removal.start removal.stop e1 j) ∧
    SlotClean removal.start removal.stop e1 idx := by
  unfold subtractStep at h
  split at h
  · next hget =>
      injection h with h1
      subst h1
      refine ⟨rfl, hno, hval, fun a ha => ha, fun j hj => hj, ?_⟩
      intro r0 hr0
      rw [hget] at hr0
      exact absurd hr0 (by simp)
  · next hget =>
      injection h with h1
      subst h1
      refine ⟨rfl, hno, hval, fun a ha => ha, fun j hj => hj, ?_⟩
      intro r0 hr0
      rw [hget] at hr0
      injection hr0 with h2
      exact absurd h2 (by simp)
  · next run hget =>
      have hmem : run ∈ runsOf e := runsOf_mem_of_get? hget
      have hvr : ValidRun run := hval run hmem
      split at h
      · next err hff =>
          rw [from_frame_ok_of_valid run hvr] at hff
          exact absurd hff (by simp)
      · next es hff =>
          obtain ⟨-, hes⟩ := valid_of_from_frame_ok hff
          have hes1 : es.start = run.start := by rw [hes]
          have hes2 : es.stop = fend run := by rw [hes]
          have hal1 : es.start % 4096 = 0 := by rw [hes1]; exact hvr.2.1
          have hal2 : es.stop % 4096 = 0 := by
            rw [hes2]
            have h5 := hvr.2.1
            unfold fend
            omega
          by_cases hov : es.overlaps removal = true
          · -- the slot overlaps the removal: it is emptied and up to two
            -- overhang pieces are pushed back
            rw [if_neg (not_not_intro hov)] at h
            have hovA := overlaps_iff.mp hov
            have hrs_lt : removal.start < fend run := by rw [← hes2]; exact hovA.2
            have hre_gt : run.start < removal.stop := by rw [← hes1]; exact hovA.1
            have hidxlt : idx < e.length := by
              obtain ⟨hlt, -⟩ := List.get?_eq_some.mp hget
              exact hlt
            have hE := (slot_decomp hget).1
            have hES := (slot_decomp hget).2
            have hruns : runsOf e =
                runsOf (e.take idx) ++ run :: runsOf (e.drop (idx + 1)) := by
              conv_lhs => rw [hE]
              rw [runsOf_append, runsOf_cons_some]
            have hrunsS : runsOf (e.set idx none) =
                runsOf (e.take idx) ++ runsOf (e.drop (idx + 1)) := by
              rw [hES, runsOf_append, runsOf_cons_none]
            have hmid : NoOv (runsOf (e.take idx) ++ runsOf (e.drop (idx + 1))) ∧
                ∀ g ∈ runsOf (e.take idx) ++ runsOf (e.drop (idx + 1)),
                  ¬ frOv g run := by
              have hh := hno
              rw [hruns] at hh
              exact noOv_middle_elim hh
            have hnoS : NoOv (runsOf (e.set idx none)) := by
              rw [hrunsS]; exact hmid.1
            have hsep : ∀ g ∈ runsOf (e.set idx none), ¬ frOv g run := by
              rw [hrunsS]; exact hmid.2
            have hmemS : ∀ g ∈ runsOf (e.set idx none), g ∈ runsOf e := by
              intro g hg
              rw [hrunsS] at hg
              rw [hruns]
              rcases List.mem_append.mp hg with h' | h'
              · exact List.mem_append.mpr (Or.inl h')
              · exact List.mem_append.mpr (Or.inr (List.mem_cons_of_mem _ h'))
            have hvalS : ∀ g ∈ runsOf (e.set idx none), ValidRun g :=
              fun g hg => hval g (hmemS g hg)
            have hcovS : ∀ a, coveredP (e.set idx none) a → coveredP e a := by
              rintro a ⟨g, hg, hin⟩
              exact ⟨g, hmemS g hg, hin⟩
            have hcleanS :
                SlotClean removal.start removal.stop (e.set idx none) idx := by
              intro r0 hr0
              rw [set_get?_self e idx hidxlt] at hr0
              injection hr0 with h2
              exact absurd h2 (by simp)
            have hpresS : ∀ j, SlotClean removal.start removal.stop e j →
                SlotClean removal.start removal.stop (e.set idx none) j := by
              intro j hcj r0 hr0
              rcases set_get? e idx j with h' | h'
              · rw [h'] at hr0
                exact hcj r0 hr0
              · rw [h'] at hr0
                injection hr0 with h2
                exact absurd h2 (by simp)
            rw [subtract_ok_char hov hal1 hal2 hr1 hr2] at h
            by_cases hL : es.start < removal.start
            · rw [if_pos hL] at h
              -- left-piece facts
              obtain ⟨-, hcL, hfeL, hstL⟩ :=
                @into_frame_ok ⟨es.start, removal.start⟩ hL hal1 hr1
              have hfLs : (sframe ⟨es.start, removal.start⟩).start = run.start := by
                rw [hstL]; exact hes1
              have hfLe : fend (sframe ⟨es.start, removal.start⟩) =
                  removal.start := by
                rw [hfeL]
              have hnotL : ∀ g ∈ runsOf (e.set idx none),
                  ¬ frOv g (sframe ⟨es.start, removal.start⟩) := by
                intro g hg hq
                exact hsep g hg (frOv_mono (le_of_eq hfLs.symm)
                  (by rw [hfLe]; exact Nat.le_of_lt hrs_lt) hq)
              have hinL : ∀ a, inSpan ⟨es.start, removal.start⟩ a →
                  inRun run a := by
                intro a ha
                unfold inSpan at ha
                unfold inRun
                dsimp only at ha
                omega
              have hcleanL :
                  removal.stop ≤ (sframe ⟨es.start, removal.start⟩).start ∨
                  fend (sframe ⟨es.start, removal.start⟩) ≤ removal.start :=
                Or.inr (le_of_eq hfLe)
              by_cases hR : removal.stop < es.stop
              · rw [if_pos hR] at h
                have h2 : (match pushSpanSlots ⟨es.start, removal.start⟩
                      (e.set idx none) with
                    | Except.error err => Except.error err
                    | Except.ok e2 =>
                        pushSpanSlots ⟨removal.stop, es.stop⟩ e2 :
                    Except PhysAllocError (List (Option PhysFrame))) =
                    .ok e1 := h
                cases hp1 : pushSpanSlots ⟨es.start, removal.start⟩
                    (e.set idx none) with
                | error err =>
                    rw [hp1] at h2
                    have h3 : (Except.error err :
                        Except PhysAllocError (List (Option PhysFrame))) =
                        .ok e1 := h2
                    exact absurd h3 (by simp)
                | ok e2 =>
                    rw [hp1] at h2
                    have h3 : pushSpanSlots ⟨removal.stop, es.stop⟩ e2 =
                        .ok e1 := h2
                    obtain ⟨hlen2, hvalL, hperm2, hcov2, hget2⟩ :=
                      pushSpan_spec hp1 hL hal1 hr1 (lt_trans hr3 hr4)
                    have hnoE2 : NoOv (runsOf e2) :=
                      noOv_of_perm hperm2 (noOv_cons hnoS hnotL)
                    have hvalE2 : ∀ g ∈ runsOf e2, ValidRun g := by
                      intro g hg
                      rcases List.mem_cons.mp (hperm2.mem_iff.mp hg) with h' | h'
                      · rw [h']; exact hvalL
                      · exact hvalS g h'
                    have hcovE2 : ∀ a, coveredP e2 a → coveredP e a := by
                      intro a ha
                      rcases (hcov2 a).mp ha with h' | h'
                      · exact ⟨run, hmem, hinL a h'⟩
                      · exact hcovS a h'
                    have hpresE2 : ∀ j,
                        SlotClean removal.start removal.stop (e.set idx none) j →
                        SlotClean removal.start removal.stop e2 j := by
                      intro j hcj r0 hr0
                      rcases hget2 j with h' | h'
                      · rw [h'] at hr0
                        exact hcj r0 hr0
                      · rw [h'] at hr0
                        injection hr0 with h4
                        injection h4 with h5
                        rw [← h5]
                        exact hcleanL
                    -- right-piece facts
                    obtain ⟨-, hcR, hfeR, hstR⟩ :=
                      @into_frame_ok ⟨removal.stop, es.stop⟩ hR hr2 hal2
                    have hfRs : (sframe ⟨removal.stop, es.stop⟩).start =
                        removal.stop := by
                      rw [hstR]
                    have hfRe : fend (sframe ⟨removal.stop, es.stop⟩) =
                        fend run := by
                      rw [hfeR]; exact hes2
                    have hnotR : ∀ g ∈ runsOf e2,
                        ¬ frOv g (sframe ⟨removal.stop, es.stop⟩) := by
                      intro g hg hq
                      rcases List.mem_cons.mp (hperm2.mem_iff.mp hg) with h' | h'
                      · subst h'
                        have h6 := hq.2
                        rw [hfRs, hfLe] at h6
                        omega
                      · exact hsep g h' (frOv_mono
                          (by rw [hfRs]; exact Nat.le_of_lt hre_gt)
                          (le_of_eq hfRe) hq)
                    have hinR : ∀ a, inSpan ⟨removal.stop, es.stop⟩ a →
                        inRun run a := by
                      intro a ha
                      unfold inSpan at ha
                      unfold inRun
                      dsimp only at ha
                      omega
                    have hcleanR :
                        removal.stop ≤ (sframe ⟨removal.stop, es.stop⟩).start ∨
                        fend (sframe ⟨removal.stop, es.stop⟩) ≤ removal.start :=
                      Or.inl (le_of_eq hfRs.symm)
                    obtain ⟨hlen3, hvalR, hperm3, hcov3, hget3⟩ :=
                      pushSpan_spec h3 hR hr2 hal2 (by rw [hes2]; exact hvr.2.2)
                    have hnoE1 : NoOv (runsOf e1) :=
                      noOv_of_perm hperm3 (noOv_cons hnoE2 hnotR)
                    have hvalE1 : ∀ g ∈ runsOf e1, ValidRun g := by
                      intro g hg
                      rcases List.mem_cons.mp (hperm3.mem_iff.mp hg) with h' | h'
                      · rw [h']; exact hvalR
                      · exact hvalE2 g h'
                    have hcovE1 : ∀ a, coveredP e1 a → coveredP e a := by
                      intro a ha
                      rcases (hcov3 a).mp ha with h' | h'
                      · exact ⟨run, hmem, hinR a h'⟩
                      · exact hcovE2 a h'
                    have hpresE1 : ∀ j,
                        SlotClean removal.start removal.stop e2 j →
                        SlotClean removal.start removal.stop e1 j := by
                      intro j hcj r0 hr0
                      rcases hget3 j with h' | h'
                      · rw [h'] at hr0
                        exact hcj r0 hr0
                      · rw [h'] at hr0
                        injection hr0 with h4
                        injection h4 with h5
                        rw [← h5]
                        exact hcleanR
                    refine ⟨by rw [hlen3, hlen2]; simp, hnoE1, hvalE1, hcovE1,
                      ?_, ?_⟩
                    · intro j hcj
                      exact hpresE1 j (hpresE2 j (hpresS j hcj))
                    · exact hpresE1 idx (hpresE2 idx hcleanS)
              · rw [if_neg hR] at h
                have h2 : (match pushSpanSlots ⟨es.start, removal.start⟩
                      (e.set idx none) with
                    | Except.error err => Except.error err
                    | Except.ok e2 => Except.ok e2 :
                    Except PhysAllocError (List (Option PhysFrame))) =
                    .ok e1 := h
                cases hp1 : pushSpanSlots ⟨es.start, removal.start⟩
                    (e.set idx none) with
                | error err =>
                    rw [hp1] at h2
                    have h3 : (Except.error err :
                        Except PhysAllocError (List (Option PhysFrame))) =
                        .ok e1 := h2
                    exact absurd h3 (by simp)
                | ok e2 =>
                    rw [hp1] at h2
                    have h3 : (Except.ok e2 :
                        Except PhysAllocError (List (Option PhysFrame))) =
                        .ok e1 := h2
                    injection h3 with h4
                    subst h4
                    obtain ⟨hlen2, hvalL, hperm2, hcov2, hget2⟩ :=
                      pushSpan_spec hp1 hL hal1 hr1 (lt_trans hr3 hr4)
                    have hnoE2 : NoOv (runsOf e2) :=
                      noOv_of_perm hperm2 (noOv_cons hnoS hnotL)
                    have hvalE2 : ∀ g ∈ runsOf e2, ValidRun g := by
                      intro g hg
                      rcases List.mem_cons.mp (hperm2.mem_iff.mp hg) with h' | h'
                      · rw [h']; exact hvalL
                      · exact hvalS g h'
                    have hcovE2 : ∀ a, coveredP e2 a → coveredP e a := by
                      intro a ha
                      rcases (hcov2 a).mp ha with h' | h'
                      · exact ⟨run, hmem, hinL a h'⟩
                      · exact hcovS a h'
                    have hpresE2 : ∀ j,
                        SlotClean removal.start removal.stop (e.set idx none) j →
                        SlotClean removal.start removal.stop e2 j := by
                      intro j hcj r0 hr0
                      rcases hget2 j with h' | h'
                      · rw [h'] at hr0
                        exact hcj r0 hr0
                      · rw [h'] at hr0
                        injection hr0 with h4
                        injection h4 with h5
                        rw [← h5]
                        exact hcleanL
                    refine ⟨by rw [hlen2]; simp, hnoE2, hvalE2, hcovE2, ?_, ?_⟩
                    · intro j hcj
                      exact hpresE2 j (hpresS j hcj)
                    · exact hpresE2 idx hcleanS
            · rw [if_neg hL] at h
              by_cases hR : removal.stop < es.stop
              · rw [if_pos hR] at h
                have h2 : pushSpanSlots ⟨removal.stop, es.stop⟩
                    (e.set idx none) = .ok e1 := h
                obtain ⟨-, hcR, hfeR, hstR⟩ :=
                  @into_frame_ok ⟨removal.stop, es.stop⟩ hR hr2 hal2
                have hfRs : (sframe ⟨removal.stop, es.stop⟩).start =
                    removal.stop := by
                  rw [hstR]
                have hfRe : fend (sframe ⟨removal.stop, es.stop⟩) =
                    fend run := by
                  rw [hfeR]; exact hes2
                have hnotR : ∀ g ∈ runsOf (e.set idx none),
                    ¬ frOv g (sframe ⟨removal.stop, es.stop⟩) := by
                  intro g hg hq
                  exact hsep g hg (frOv_mono
                    (by rw [hfRs]; exact Nat.le_of_lt hre_gt)
                    (le_of_eq hfRe) hq)
                have hinR : ∀ a, inSpan ⟨removal.stop, es.stop⟩ a →
                    inRun run a := by
                  intro a ha
                  unfold inSpan at ha
                  unfold inRun
                  dsimp only at ha
                  omega
                have hcleanR :
                    removal.stop ≤ (sframe ⟨removal.stop, es.stop⟩).start ∨
                    fend (sframe ⟨removal.stop, es.stop⟩) ≤ removal.start :=
                  Or.inl (le_of_eq hfRs.symm)
                obtain ⟨hlen2, hvalR, hperm2, hcov2, hget2⟩ :=
                  pushSpan_spec h2 hR hr2 hal2 (by rw [hes2]; exact hvr.2.2)
                have hnoE1 : NoOv (runsOf e1) :=
                  noOv_of_perm hperm2 (noOv_cons hnoS hnotR)
                have hvalE1 : ∀ g ∈ runsOf e1, ValidRun g := by
                  intro g hg
                  rcases List.mem_cons.mp (hperm2.mem_iff.mp hg) with h' | h'
                  · rw [h']; exact hvalR
                  · exact hvalS g h'
                have hcovE1 : ∀ a, coveredP e1 a → coveredP e a := by
                  intro a ha
                  rcases (hcov2 a).mp ha with h' | h'
                  · exact ⟨run, hmem, hinR a h'⟩
                  · exact hcovS a h'
                have hpresE1 : ∀ j,
                    SlotClean removal.start removal.stop (e.set idx none) j →
                    SlotClean removal.start removal.stop e1 j := by
                  intro j hcj r0 hr0
                  rcases hget2 j with h' | h'
                  · rw [h'] at hr0
                    exact hcj r0 hr0
                  · rw [h'] at hr0
                    injection hr0 with h4
                    injection h4 with h5
                    rw [← h5]
                    exact hcleanR
                refine ⟨by rw [hlen2]; simp, hnoE1, hvalE1, hcovE1, ?_, ?_⟩
                · intro j hcj
                  exact hpresE1 j (hpresS j hcj)
                · exact hpresE1 idx hcleanS
              · rw [if_neg hR] at h
                have h2 : (Except.ok (e.set idx none) :
                    Except PhysAllocError (List (Option PhysFrame))) =
                    .ok e1 := h
                injection h2 with h3
                subst h3
                exact ⟨by simp, hnoS, hvalS, hcovS, hpresS, hcleanS⟩
          · -- the slot does not overlap the removal: nothing changes
            have hovF : es.overlaps removal = false :=
              Bool.eq_false_iff.mpr hov
            rw [if_pos (by simp [hovF])] at h
            injection h with h1
            subst h1
            refine ⟨rfl, hno, hval, fun a ha => ha, fun j hj => hj, ?_⟩
            intro r0 hr0
            rw [hget] at hr0
            injection hr0 with h2
            injection h2 with h3
            subst h3
            have h4 := overlaps_false_iff.mp hovF
            rw [hes1, hes2] at h4
            omega

/-- The index loop of `subtract_range`: composition of `subtractStep_spec`
over the processed indices, with every processed slot clean at the end. -/
lemma subtractGo_spec {removal : FrameSpan}
    (hr1 : removal.start % 4096 = 0) (hr2 : removal.stop % 4096 = 0)
    (hr3 : removal.start < removal.stop) (hr4 : removal.stop < U64) :
    ∀ (idxs : List Nat) (e e1 : List (Option PhysFrame)),
    subtractGo removal idxs e = .ok e1 →
    NoOv (runsOf e) → (∀ g ∈ runsOf e, ValidRun g) →
    e1.length = e.length ∧ NoOv (runsOf e1) ∧
    (∀ g ∈ runsOf e1, ValidRun g) ∧
    (∀ a, coveredP e1 a → coveredP e a) ∧
    (∀ j, SlotClean removal.start removal.stop e j →
      SlotClean removal.start removal.stop e1 j) ∧
    (∀ j ∈ idxs, SlotClean removal.start removal.stop e1 j) := by
  intro idxs
  induction idxs with
  | nil =>
      intro e e1 h hno hval
      injection h with h1
      subst h1
      refine ⟨rfl, hno, hval, fun a ha => ha, fun j hj => hj, ?_⟩
      intro j hj
      exact absurd hj (List.not_mem_nil j)
  | cons i rest ih =>
      intro e e1 h hno hval
      unfold subtractGo at h
      split at h
      · exact absurd h (by simp)
      · next e2 hstep =>
          obtain ⟨hlen1, hno1, hval1, hcov1, hpres1, hclean1⟩ :=
            subtractStep_spec hstep hr1 hr2 hr3 hr4 hno hval
          obtain ⟨hlen2, hno2, hval2, hcov2, hpres2, hclean2⟩ :=
            ih e2 e1 h hno1 hval1
          refine ⟨hlen2.trans hlen1, hno2, hval2,
            fun a ha => hcov1 a (hcov2 a ha),
            fun j hj => hpres2 j (hpres1 j hj), ?_⟩
          intro j hj
          rcases List.mem_cons.mp hj with h' | h'
          · subst h'
            exact hpres2 j hclean1
          · exact hclean2 j h'

set_option maxRecDepth 16384 in
set_option maxHeartbeats 1600000 in
/-- Master lemma for `FrameRunList::subtract_range` of a nonempty byte
range: the invariants survive, coverage only shrinks, and every surviving
run's byte interval avoids `[start, stop)`. -/
lemma subtract_range_spec {rl rl1 : FrameRunList} {start stop : Nat}
    (h : rl.subtract_range start stop = .ok rl1) (hss : start < stop)
    (hno : NoOv (runsOf rl.entries))
    (hval : ∀ g ∈ runsOf rl.entries, ValidRun g) :
    NoOv (runsOf rl1.entries) ∧ (∀ g ∈ runsOf rl1.entries, ValidRun g) ∧
    (∀ a, coveredP rl1.entries a → coveredP rl.entries a) ∧
    (∀ g ∈ runsOf rl1.entries, stop ≤ g.start ∨ fend g ≤ start) := by
  unfold FrameRunList.subtract_range at h
  rw [if_neg (by omega : ¬ start ≥ stop)] at h
  by_cases hb : alignDown start ≥ alignUp stop
  · rw [if_pos hb] at h
    injection h with h1
    subst h1
    -- the early return forces the align-up overflow corner, where every
    -- well-formed run ends at or below the removal range's start
    have hcor : ¬ stop + 4095 < U64 := by
      intro hlt
      have h2 := alignUp_ge hlt
      have h3 := alignDown_le start
      omega
    have hov := alignUp_overflow hcor
    refine ⟨hno, hval, fun a ha => ha, ?_⟩
    intro g hg
    right
    have h3 := fend_le_of_valid (hval g hg)
    have h4 := alignDown_le start
    rw [hov] at hb
    omega
  · rw [if_neg hb] at h
    have hlt : alignDown start < alignUp stop := Nat.lt_of_not_le hb
    rw [make_ok hlt (alignDown_aligned start) (alignUp_aligned stop)] at h
    have h2 : (match subtractGo ⟨alignDown start, alignUp stop⟩
        (List.range rl.entries.length) rl.entries with
      | Except.error e => Except.error e
      | Except.ok e1 => Except.ok (⟨e1⟩ : FrameRunList) :
      Except PhysAllocError FrameRunList) = .ok rl1 := h
    cases hgo : subtractGo ⟨alignDown start, alignUp stop⟩
        (List.range rl.entries.length) rl.entries with
    | error err =>
        rw [hgo] at h2
        have h3 : (Except.error err : Except PhysAllocError FrameRunList) =
            .ok rl1 := h2
        exact absurd h3 (by simp)
    | ok et =>
        rw [hgo] at h2
        have h3 : (Except.ok (⟨et⟩ : FrameRunList) :
            Except PhysAllocError FrameRunList) = .ok rl1 := h2
        injection h3 with h4
        have hent : rl1.entries = et := by rw [← h4]
        have hr4x : alignUp stop < U64 :=
          lt_of_le_of_lt (alignUp_bound stop)
            (by have hU : U64 = 18446744073709551616 := rfl; omega)
        have hspec := @subtractGo_spec ⟨alignDown start, alignUp stop⟩
          (alignDown_aligned start) (alignUp_aligned stop) hlt hr4x
          (List.range rl.entries.length) rl.entries et hgo hno hval
        obtain ⟨hlen, hno', hval', hcov', hpres, hclean⟩ := hspec
        rw [hent]
        refine ⟨hno', hval', fun a ha => hcov' a ha, ?_⟩
        intro g hg
        obtain ⟨j, hjlt, hjget⟩ := get?_of_runsOf_mem hg
        have hj : j ∈ List.range rl.entries.length := by
          rw [List.mem_range, ← hlen]
          exact hjlt
        have hcl := hclean j hj g hjget
        dsimp only at hcl
        rcases hcl with h5 | h5
        · by_cases hcor : stop + 4095 < U64
          · left
            have h6 := alignUp_ge hcor
            omega
          · exfalso
            have h6 := alignUp_overflow hcor
            rw [h6] at h5
            have h7 := fend_le_of_valid (hval' g hg)
            have h8 := fend_pos (hval' g hg).1
            omega
        · right
          have h6 := alignDown_le start
          omega

/-- A successful `ReservedList::push` records a nonempty region, and the
stored regions afterwards are the new one plus the old ones. -/
lemma reserved_push_ok {res res1 : ReservedList} {region : ReservedRegion}
    (h : res.push region = .ok res1) :
    region.start < region.stop ∧
    ∀ r ∈ regionsOf res1, r = region ∨ r ∈ regionsOf res := by
  unfold ReservedList.push at h
  split at h
  · exact absurd h (by simp)
  · next hge =>
      split at h
      · exact absurd h (by simp)
      · next e1 hsp =>
          injection h with h1
          obtain ⟨l1, l2, he, he1⟩ :=
            slotPush_ok res.entries.length region res.entries e1 hsp
          have hent : res1.entries = l1 ++ some region :: l2 := by
            rw [← h1]
            exact he1
          refine ⟨by omega, ?_⟩
          intro r hr
          have hrr : r ∈ List.filterMap id (l1 ++ some region :: l2) := by
            unfold regionsOf at hr
            rw [hent] at hr
            exact hr
          rw [List.filterMap_append] at hrr
          rcases List.mem_append.mp hrr with h' | h'
          · right
            unfold regionsOf
            rw [he, List.filterMap_append]
            exact List.mem_append.mpr (Or.inl h')
          · rw [show List.filterMap id (some region :: l2) =
                region :: List.filterMap id l2 from by simp] at h'
            rcases List.mem_cons.mp h' with h'' | h''
            · exact Or.inl h''
            · right
              unfold regionsOf
              rw [he, List.filterMap_append]
              refine List.mem_append.mpr (Or.inr ?_)
              rw [show List.filterMap id (none :: l2) =
                  List.filterMap id l2 from by simp]
              exact h''

lemma filterMap_id_replicate_none {α : Type} (n : Nat) :
    List.filterMap id (List.replicate n (none : Option α)) = [] := by
  induction n with
  | zero => rfl
  | succ n ih =>
      rw [List.replicate_succ]
      simp [ih]

lemma runsOf_replicate (n : Nat) : runsOf (List.replicate n none) = [] :=
  filterMap_id_replicate_none n

lemma regionsOf_replicate (n : Nat) :
    regionsOf ⟨List.replicate n none⟩ = [] :=
  filterMap_id_replicate_none n

lemma fromDescsGo_nil (idx : Nat) (e : List (Option PhysFrame)) :
    fromDescsGo idx [] e = .ok e := rfl

lemma fromDescsGo_cons (idx : Nat) (d : MemoryDescriptor)
    (rest : List MemoryDescriptor) (e : List (Option PhysFrame)) :
    fromDescsGo idx (d :: rest) e =
      if d.typ ≠ CONVENTIONAL then fromDescsGo (idx + 1) rest e
      else if d.number_of_pages = 0 then fromDescsGo (idx + 1) rest e
      else
        match listPush ⟨d.physical_start, d.number_of_pages⟩ e with
        | .error err => .error (.InvalidDescriptor idx err)
        | .ok e1 => fromDescsGo (idx + 1) rest e1 := rfl

lemma convFrames_cons (d : MemoryDescriptor) (rest : List MemoryDescriptor) :
    convFrames (d :: rest) =
      if d.typ = CONVENTIONAL ∧ d.number_of_pages ≠ 0 then
        (⟨d.physical_start, d.number_of_pages⟩ : PhysFrame) :: convFrames rest
      else convFrames rest := by
  unfold convFrames
  by_cases hc : d.typ = CONVENTIONAL ∧ d.number_of_pages ≠ 0
  · rw [if_pos hc]
    rw [List.filterMap_cons]
    rw [if_pos hc]
  · rw [if_neg hc]
    rw [List.filterMap_cons]
    rw [if_neg hc]

/-- The descriptor walk of `from_memory_map` stores exactly the conventional
nonempty descriptors' runs (as a permutation of the slots), on top of
whatever was stored before. -/
lemma fromDescsGo_spec :
    ∀ (ds : List MemoryDescriptor) (idx : Nat) (e e1 : List (Option PhysFrame)),
    fromDescsGo idx ds e = .ok e1 →
    (runsOf e1).Perm (convFrames ds ++ runsOf e) := by
  intro ds
  induction ds with
  | nil =>
      intro idx e e1 h
      rw [fromDescsGo_nil] at h
      injection h with h1
      subst h1
      rw [show convFrames [] = [] from rfl, List.nil_append]
  | cons d rest ih =>
      intro idx e e1 h
      rw [fromDescsGo_cons] at h
      by_cases h1 : d.typ ≠ CONVENTIONAL
      · rw [if_pos h1] at h
        rw [convFrames_cons, if_neg (fun hc => h1 hc.1)]
        exact ih (idx + 1) e e1 h
      · rw [if_neg h1] at h
        have hty : d.typ = CONVENTIONAL := not_not.mp h1
        by_cases h2 : d.number_of_pages = 0
        · rw [if_pos h2] at h
          rw [convFrames_cons, if_neg (fun hc => hc.2 h2)]
          exact ih (idx + 1) e e1 h
        · rw [if_neg h2] at h
          cases hp : listPush ⟨d.physical_start, d.number_of_pages⟩ e with
          | error err =>
              rw [hp] at h
              have h3 : (Except.error (PhysAllocInitError.InvalidDescriptor
                  idx err) :
                  Except PhysAllocInitError (List (Option PhysFrame))) =
                  .ok e1 := h
              exact absurd h3 (by simp)
          | ok e2 =>
              rw [hp] at h
              have h3 : fromDescsGo (idx + 1) rest e2 = .ok e1 := h
              obtain ⟨l1, l2, he, he2⟩ := listPush_ok h2 hp
              have hpm : (runsOf e2).Perm
                  ((⟨d.physical_start, d.number_of_pages⟩ : PhysFrame) ::
                    runsOf e) := by
                rw [he2, he, runsOf_append, runsOf_cons_some, runsOf_append,
                  runsOf_cons_none]
                exact List.perm_middle
              rw [convFrames_cons, if_pos ⟨hty, h2⟩]
              exact (ih (idx + 1) e2 e1 h3).trans
                ((List.Perm.append_left (convFrames rest) hpm).trans
                  List.perm_middle)

/-- The reservation walk of `from_memory_map` preserves all four state
invariants. -/
lemma applyReservations_spec :
    ∀ (rs : List ReservedRegion) (free : FrameRunList) (res : ReservedList)
      (free1 : FrameRunList) (res1 : ReservedList),
    applyReservations rs free res = .ok (free1, res1) →
    NoOv (runsOf free.entries) → (∀ g ∈ runsOf free.entries, ValidRun g) →
    (∀ r ∈ regionsOf res, r.start < r.stop) →
    (∀ g ∈ runsOf free.entries, ∀ r ∈ regionsOf res, frDisjointR g r) →
    NoOv (runsOf free1.entries) ∧ (∀ g ∈ runsOf free1.entries, ValidRun g) ∧
    (∀ r ∈ regionsOf res1, r.start < r.stop) ∧
    (∀ g ∈ runsOf free1.entries, ∀ r ∈ regionsOf res1, frDisjointR g r) := by
  intro rs
  induction rs with
  | nil =>
      intro free res free1 res1 h h1 h2 h3 h4
      injection h with hp
      injection hp with hp1 hp2
      subst hp1
      subst hp2
      exact ⟨h1, h2, h3, h4⟩
  | cons region rest ih =>
      intro free res free1 res1 h h1 h2 h3 h4
      unfold applyReservations at h
      split at h
      · exact absurd h (by simp)
      · next resA hpush =>
          split at h
          · exact absurd h (by simp)
          · next freeA hsub =>
              obtain ⟨hlt, hmemR⟩ := reserved_push_ok hpush
              obtain ⟨hnoA, hvalA, hcovA, hdisA⟩ :=
                subtract_range_spec hsub hlt h1 h2
              refine ih freeA resA free1 res1 h hnoA hvalA ?_ ?_
              · intro r hr
                rcases hmemR r hr with h' | h'
                · rw [h']
                  exact hlt
                · exact h3 r h'
              · intro g hg r hr
                rcases hmemR r hr with h' | h'
                · subst h'
                  unfold frDisjointR
                  rcases hdisA g hg with h5 | h5
                  · exact Or.inr h5
                  · exact Or.inl h5
                · exact disjoint_of_covered_sub hvalA hcovA (h3 r h')
                    (fun f0 hf0 => h4 f0 hf0 r h') g hg

/-- Construction part of the invariant claim: `from_memory_map` establishes
the state invariant whenever the conventional descriptors it stores are
pairwise disjoint and well formed. -/
lemma fromMemoryMap_invariant {map : MemoryMap}
    {resv : List ReservedRegion} {fs rs : Nat} {a : PhysicalAllocator}
    (h : PhysicalAllocator.from_memory_map map resv fs rs = .ok a)
    (hcv : NoOv (convFrames (mmIter map)))
    (hvv : ∀ f ∈ convFrames (mmIter map), ValidRun f) : Invariant a := by
  unfold PhysicalAllocator.from_memory_map at h
  split at h
  · exact absurd h (by simp)
  · split at h
    · exact absurd h (by simp)
    · next e hgo =>
        split at h
        · exact absurd h (by simp)
        · split at h
          · exact absurd h (by simp)
          · next free res happ =>
              injection h with h1
              subst h1
              have hperm : (runsOf e).Perm (convFrames (mmIter map)) := by
                have hp := fromDescsGo_spec (mmIter map) 0
                  (List.replicate fs none) e hgo
                rw [runsOf_replicate, List.append_nil] at hp
                exact hp
              have hnoE : NoOv (runsOf e) := noOv_of_perm hperm hcv
              have hvalE : ∀ g ∈ runsOf e, ValidRun g :=
                fun g hg => hvv g (hperm.mem_iff.mp hg)
              obtain ⟨hno1, hval1, hreg1, hdis1⟩ :=
                applyReservations_spec resv ⟨e⟩ ⟨List.replicate rs none⟩
                  free res happ hnoE hvalE
                  (by intro r hr
                      rw [regionsOf_replicate] at hr
                      exact absurd hr (List.not_mem_nil r))
                  (by intro g hg r hr
                      rw [regionsOf_replicate] at hr
                      exact absurd hr (List.not_mem_nil r))
              exact ⟨hno1, hval1, hreg1, hdis1⟩

/-- `allocate_order` part of the invariant claim. -/
lemma allocate_order_invariant {a : PhysicalAllocator} {order : Nat}
    {f : PhysFrame} {a1 : PhysicalAllocator} (hInv : Invariant a)
    (h : a.allocate_order order = (.ok f, a1)) : Invariant a1 := by
  obtain ⟨hI1, hI2, hI3, hI4⟩ := hInv
  unfold PhysicalAllocator.allocate_order at h
  split at h
  · rw [Prod.mk.injEq] at h
    exact absurd h.1 (by simp)
  · next count hshl =>
      split at h
      · split at h
        · rw [Prod.mk.injEq] at h
          exact absurd h.1 (by simp)
        · rw [Prod.mk.injEq] at h
          exact absurd h.1 (by simp)
        · next f' free1 hac =>
            rw [Prod.mk.injEq] at h
            obtain ⟨h5, h6⟩ := h
            injection h5 with h7
            subst h7
            subst h6
            obtain ⟨hfc, hfr0, hcovd, hvpres, hnopart⟩ := allocate_count_spec hac
            obtain ⟨hvf, hval1⟩ := hvpres hI2
            refine ⟨(hnopart hI1).2.2, hval1, hI3, ?_⟩
            intro g hg r hr
            exact disjoint_of_covered_sub hval1 hcovd (hI3 r hr)
              (fun f0 hf0 => hI4 f0 hf0 r hr) g hg
      · rw [Prod.mk.injEq] at h
        exact absurd h.1 (by simp)

/-- `free` part of the invariant claim: preserved when the freed frame's
byte interval avoids every recorded reservation's. -/
lemma freeFrame_invariant {a : PhysicalAllocator} {f : PhysFrame}
    {a1 : PhysicalAllocator} (hInv : Invariant a)
    (hfd : ∀ r ∈ regionsOf a.reserved, frDisjointR f r)
    (h : a.freeFrame f = .ok a1) : Invariant a1 := by
  obtain ⟨hI1, hI2, hI3, hI4⟩ := hInv
  unfold PhysicalAllocator.freeFrame at h
  split at h
  · injection h with h1
    subst h1
    exact ⟨hI1, hI2, hI3, hI4⟩
  · next hc0 =>
      split at h
      · exact absurd h (by simp)
      · next free1 hins =>
          injection h with h1
          subst h1
          obtain ⟨hvf, hcoviff, hnopres, hvalall⟩ := insert_ok hc0 hins
          refine ⟨hnopres hI1, hvalall, hI3, ?_⟩
          intro g hg r hr
          refine frDisjointR_of_bytes (hvalall g hg).1 (hI3 r hr) ?_
          intro x hx hxc
          rcases (hcoviff x).mp ⟨g, hg, hx⟩ with h' | h'
          · obtain ⟨f0, hf0, hf0in⟩ := h'
            exact bytes_of_frDisjointR (hI4 f0 hf0 r hr) x hf0in hxc
          · exact bytes_of_frDisjointR (hfd r hr) x h' hxc

/-- `reserve` part of the invariant claim. -/
lemma reserve_invariant {a : PhysicalAllocator} {region : ReservedRegion}
    {a1 : PhysicalAllocator} (hInv : Invariant a)
    (h : a.reserve region = .ok a1) : Invariant a1 := by
  obtain ⟨hI1, hI2, hI3, hI4⟩ := hInv
  unfold PhysicalAllocator.reserve at h
  split at h
  · exact absurd h (by simp)
  · next res1 hpush =>
      split at h
      · exact absurd h (by simp)
      · next free1 hsub =>
          injection h with h1
          subst h1
          obtain ⟨hlt, hmemR⟩ := reserved_push_ok hpush
          obtain ⟨hno', hval', hcov', hdis'⟩ :=
            subtract_range_spec hsub hlt hI1 hI2
          refine ⟨hno', hval', ?_, ?_⟩
          · intro r hr
            rcases hmemR r hr with h' | h'
            · rw [h']
              exact hlt
            · exact hI3 r h'
          · intro g hg r hr
            rcases hmemR r hr with h' | h'
            · subst h'
              unfold frDisjointR
              rcases hdis' g hg with h5 | h5
              · exact Or.inr h5
              · exact Or.inl h5
            · exact disjoint_of_covered_sub hval' hcov' (hI3 r h')
                (fun f0 hf0 => hI4 f0 hf0 r h') g hg

/-! ## Claim C1: free-list coalescing -/

/-- C1, counterexample.  `FrameSpan::overlaps` is strict
(`self.start < other.end && other.start < self.end`), so two exactly
adjacent runs do not overlap and are NOT merged: inserting one frame at
4096 and one at 8192 leaves two stored runs, not the single spanning run
the claim requires. -/
theorem C1_counterexample :
    (do
      let rl1 ← FrameRunList.insert ⟨List.replicate 4 none⟩ ⟨4096, 1⟩
      let rl2 ← rl1.insert ⟨8192, 1⟩
      pure (runsOf rl2.entries) : Except PhysAllocError (List PhysFrame))
      = .ok [⟨4096, 1⟩, ⟨8192, 1⟩] ∧
    ([(⟨4096, 1⟩ : PhysFrame), ⟨8192, 1⟩].length = 1 → False) := by
  constructor
  · decide
  · decide

/-- C1, amended: insertion via `free` removes and merges exactly the stored
runs whose byte spans STRICTLY overlap the new span (abutting runs are left
alone): (a) after any successful insert, if no two stored runs overlapped
before then no two overlap after (they may abut); (b) the covered bytes
grow by exactly the inserted run's bytes, so every strictly overlapping run
is absorbed into the single pushed span; (c) inserting two exactly adjacent
runs, in either order, leaves two stored runs; (d) inserting two strictly
overlapping runs leaves a single run spanning their union. -/
theorem C1_coalescing_amended :
    (∀ (rl rl1 : FrameRunList) (f : PhysFrame), rl.insert f = .ok rl1 →
      NoOv (runsOf rl.entries) → NoOv (runsOf rl1.entries)) ∧
    (∀ (rl rl1 : FrameRunList) (f : PhysFrame), f.count ≠ 0 →
      rl.insert f = .ok rl1 →
      ∀ a, coveredP rl1.entries a ↔ (coveredP rl.entries a ∨ inRun f a)) ∧
    ((do
      let rl1 ← FrameRunList.insert ⟨List.replicate 4 none⟩ ⟨4096, 1⟩
      let rl2 ← rl1.insert ⟨8192, 1⟩
      pure (runsOf rl2.entries) : Except PhysAllocError (List PhysFrame))
      = .ok [⟨4096, 1⟩, ⟨8192, 1⟩]) ∧
    ((do
      let rl1 ← FrameRunList.insert ⟨List.replicate 4 none⟩ ⟨8192, 1⟩
      let rl2 ← rl1.insert ⟨4096, 1⟩
      pure (runsOf rl2.entries) : Except PhysAllocError (List PhysFrame))
      = .ok [⟨8192, 1⟩, ⟨4096, 1⟩]) ∧
    ((do
      let rl1 ← FrameRunList.insert ⟨List.replicate 4 none⟩ ⟨4096, 2⟩
      let rl2 ← rl1.insert ⟨8192, 2⟩
      pure (runsOf rl2.entries) : Except PhysAllocError (List PhysFrame))
      = .ok [⟨4096, 3⟩]) := by
  refine ⟨?_, ?_, by decide, by decide, by decide⟩
  · intro rl rl1 f h hno
    by_cases hc : f.count = 0
    · unfold FrameRunList.insert at h
      rw [if_pos hc] at h
      injection h with h2
      rw [← h2]
      exact hno
    · exact (insert_ok hc h).2.2.1 hno
  · intro rl rl1 f hc h
    exact (insert_ok hc h).2.1

/-- C1, witness for the amended theorem: inserting one frame into empty
4-slot storage preserves pairwise non-overlap and covers exactly its
bytes. -/
theorem C1_witness :
    NoOv (runsOf ([some ⟨4096, 1⟩, none, none, none] :
      List (Option PhysFrame))) ∧
    (∀ a, coveredP [some ⟨4096, 1⟩, none, none, none] a ↔
      (coveredP (List.replicate 4 none) a ∨ inRun ⟨4096, 1⟩ a)) :=
  ⟨C1_coalescing_amended.1 ⟨List.replicate 4 none⟩
      ⟨[some ⟨4096, 1⟩, none, none, none]⟩ ⟨4096, 1⟩ (by decide) (by decide),
   C1_coalescing_amended.2.1 ⟨List.replicate 4 none⟩
      ⟨[some ⟨4096, 1⟩, none, none, none]⟩ ⟨4096, 1⟩ (by decide) (by decide)⟩

/-! ## Claim C2: allocate/free round trip -/

/-- C2, counterexample.  Allocating one frame out of a two-frame run and
freeing it back does not restore the stored free runs: the remainder
`⟨8192, 1⟩` and the freed `⟨4096, 1⟩` abut but do not strictly overlap, so
they stay two separate runs and the original single run `⟨4096, 2⟩` is not
reconstituted. -/
theorem C2_counterexample :
    (PhysicalAllocator.allocate_order
        ⟨⟨100, 32, 32, 1, 1, []⟩, ⟨[some ⟨4096, 2⟩, none]⟩, ⟨[]⟩⟩ 0).1
      = .ok ⟨4096, 1⟩ ∧
    (PhysicalAllocator.freeFrame
        (PhysicalAllocator.allocate_order
          ⟨⟨100, 32, 32, 1, 1, []⟩, ⟨[some ⟨4096, 2⟩, none]⟩, ⟨[]⟩⟩ 0).2
        ⟨4096, 1⟩).map (fun x => runsOf x.free.entries)
      = .ok [⟨8192, 1⟩, ⟨4096, 1⟩] ∧
    ((⟨4096, 2⟩ : PhysFrame) ∈ [(⟨8192, 1⟩ : PhysFrame), ⟨4096, 1⟩] → False) ∧
    runsOf [some (⟨4096, 2⟩ : PhysFrame), none] = [⟨4096, 2⟩] := by
  refine ⟨by decide, by decide, by decide, by decide⟩

/-- C2, amended: for every allocator state whose stored free runs are
pairwise non-overlapping, an `allocate_order` that succeeds followed by a
successful `free` of the returned frame restores the SET OF FREE BYTE
ADDRESSES (the union of the stored runs) exactly; the stored run
decomposition itself may differ (the freed prefix and the split remainder
abut and are not re-merged). -/
theorem C2_roundtrip_amended (a a1 a2 : PhysicalAllocator) (order : Nat)
    (f : PhysFrame)
    (hno : NoOv (runsOf a.free.entries))
    (h1 : a.allocate_order order = (.ok f, a1))
    (h2 : a1.freeFrame f = .ok a2) :
    ∀ addr, coveredP a2.free.entries addr ↔ coveredP a.free.entries addr := by
  unfold PhysicalAllocator.allocate_order at h1
  split at h1
  · injection h1 with h1a h1b
    exact absurd h1a (by simp)
  · next count hshl =>
      split at h1
      · split at h1
        · injection h1 with h1a h1b
          exact absurd h1a (by simp)
        · injection h1 with h1a h1b
          exact absurd h1a (by simp)
        · next f0 free1 hac =>
            injection h1 with h1a h1b
            injection h1a with h1c
            subst h1c
            have ha1free : a1.free = free1 := by rw [← h1b]
            obtain ⟨hfc, hcnz, hdec, hvalp, hnop⟩ := allocate_count_spec hac
            obtain ⟨hsubcov, hiff, hno1⟩ := hnop hno
            have hfcnz : f0.count ≠ 0 := by rw [hfc]; exact hcnz
            unfold PhysicalAllocator.freeFrame at h2
            rw [if_neg hfcnz] at h2
            split at h2
            · exact absurd h2 (by simp)
            · next free2 hins =>
                injection h2 with h2b
                have ha2free : a2.free = free2 := by rw [← h2b]
                obtain ⟨hvf, hcov2, hno2, hval2⟩ := insert_ok hfcnz hins
                intro addr
                rw [ha2free] at *
                rw [hcov2 addr, ha1free] at *
                rw [hiff addr]
                constructor
                · rintro (⟨h3, _⟩ | h3)
                  · exact h3
                  · exact hsubcov addr h3
                · intro h3
                  by_cases h4 : inRun f0 addr
                  · exact Or.inr h4
                  · exact Or.inl ⟨h3, h4⟩
      · injection h1 with h1a h1b
        exact absurd h1a (by simp)

/-- C2, witness for the amended round trip at the counterexample's input. -/
theorem C2_witness :
    coveredP [some (⟨8192, 1⟩ : PhysFrame), some ⟨4096, 1⟩] 4096 ↔
    coveredP [some (⟨4096, 2⟩ : PhysFrame), none] 4096 :=
  C2_roundtrip_amended
    ⟨⟨100, 32, 32, 1, 1, []⟩, ⟨[some ⟨4096, 2⟩, none]⟩, ⟨[]⟩⟩
    ⟨⟨100, 32, 32, 1, 1, []⟩, ⟨[some ⟨8192, 1⟩, none]⟩, ⟨[]⟩⟩
    ⟨⟨100, 32, 32, 1, 1, []⟩, ⟨[some ⟨8192, 1⟩, some ⟨4096, 1⟩]⟩, ⟨[]⟩⟩
    0 ⟨4096, 1⟩ (by decide) (by decide) (by decide) 4096

/-! ## Claim C4: undersized-framebuffer validation -/

/-- C4, counterexample.  The claim states that a framebuffer with nonzero
base, size, dimensions and pixels-per-scanline, `pps ≥ width`, and
`buffer_size < width · pps · 4` fails validation; but the source compares
against `pps · height · 4`, so a 100×1 framebuffer with stride 100 and a
400-byte buffer passes validation although `400 < 100 · 100 · 4`. -/
theorem C4_counterexample :
    (validate_framebuffer ⟨4096, 400, 100, 1, 100, .Rgb⟩ = .ok ()) ∧
    (4096 ≠ 0 ∧ 400 ≠ 0 ∧ 100 ≠ 0 ∧ 1 ≠ 0 ∧ 100 ≤ 100 ∧
      400 < 100 * 100 * 4) := by
  decide

/-- C4, amended: under the claim's hypotheses, if
`buffer_size < pixels_per_scanline · height · 4` (the quantity the source
actually compares, computed in `u128` and truncated back to `u64`, so the
product is additionally required to fit in a `u64`), then validation fails
with the buffer-smaller-than-required error. -/
theorem C4_undersized_framebuffer_amended (fb : Framebuffer)
    (hbase : fb.base_address ≠ 0) (hsize : fb.buffer_size ≠ 0)
    (hw : fb.width ≠ 0) (hh : fb.height ≠ 0)
    (hp : fb.pixels_per_scanline ≠ 0)
    (hpw : fb.width ≤ fb.pixels_per_scanline)
    (hbound : 4 * fb.pixels_per_scanline * fb.height < U64)
    (hlt : fb.buffer_size < fb.pixels_per_scanline * fb.height * 4) :
    validate_framebuffer fb =
      .error (.FramebufferInvalid "framebuffer buffer smaller than required size") := by
  have hU : U64 ≤ U128 - 1 := by unfold U64 U128; norm_num
  have hle : 4 * fb.pixels_per_scanline ≤ 4 * fb.pixels_per_scanline * fb.height :=
    Nat.le_mul_of_pos_right _ (Nat.pos_of_ne_zero hh)
  have hppslt : 4 * fb.pixels_per_scanline < U64 := lt_of_le_of_lt hle hbound
  have h1 : satMul128 4 fb.pixels_per_scanline = 4 * fb.pixels_per_scanline := by
    unfold satMul128
    omega
  have h2 : satMul128 (4 * fb.pixels_per_scanline) fb.height
      = 4 * fb.pixels_per_scanline * fb.height := by
    unfold satMul128
    omega
  have h3 : (4 * fb.pixels_per_scanline * fb.height) % U64
      = 4 * fb.pixels_per_scanline * fb.height := Nat.mod_eq_of_lt hbound
  have hcomm : 4 * fb.pixels_per_scanline * fb.height
      = fb.pixels_per_scanline * fb.height * 4 := by ring
  unfold validate_framebuffer
  rw [if_neg hbase, if_neg hsize, if_neg (by push_neg; exact ⟨hw, hh⟩),
    if_neg hp, if_neg (by omega)]
  simp only [h1, h2, h3]
  rw [hcomm, if_pos hlt]

/-- C4, witness for the amended theorem at the spec's own scenario 3:
a 100×100 framebuffer with stride 100 and a 100-byte buffer. -/
theorem C4_witness :
    validate_framebuffer ⟨4096, 100, 100, 100, 100, .Rgb⟩ =
      .error (.FramebufferInvalid "framebuffer buffer smaller than required size") :=
  C4_undersized_framebuffer_amended ⟨4096, 100, 100, 100, 100, .Rgb⟩
    (by decide) (by decide) (by decide) (by decide) (by decide) (by decide)
    (by decide) (by decide)

/-! ## Claim C9: version gate -/

/-- C9: for every BootAbi whose version differs from `ABI_VERSION`,
validation fails with `VersionMismatch {expected := ABI_VERSION, found}`
regardless of the framebuffer and memory-map contents (so before either of
those checks can reject); with the matching version the version gate passes
and the result is exactly that of the framebuffer check followed by the
memory-map check. -/
theorem C9_version_gate (abi : BootAbi) :
    (abi.version ≠ ABI_VERSION →
      validate_boot_abi abi = .error (.VersionMismatch ABI_VERSION abi.version)) ∧
    (abi.version = ABI_VERSION →
      validate_boot_abi abi =
        match validate_framebuffer abi.framebuffer with
        | .error e => .error e
        | .ok _ => validate_memory_map abi.memory_map) := by
  constructor <;> intro h <;> simp [validate_boot_abi, h]

/-- C9, witness: a version-2 record is rejected with
`VersionMismatch {expected := 1, found := 2}`; the same record with
version 1 passes the version gate. -/
theorem C9_witness :
    (validate_boot_abi
        ⟨2, ⟨4096, 2000000, 800, 600, 800, .Rgb⟩, ⟨8192, 128, 32, 1, 4, []⟩⟩ =
      .error (.VersionMismatch 1 2)) ∧
    (validate_boot_abi
        ⟨1, ⟨4096, 2000000, 800, 600, 800, .Rgb⟩, ⟨8192, 128, 32, 1, 4, []⟩⟩ =
      match validate_framebuffer ⟨4096, 2000000, 800, 600, 800, .Rgb⟩ with
      | .error e => .error e
      | .ok _ => validate_memory_map ⟨8192, 128, 32, 1, 4, []⟩) :=
  ⟨(C9_version_gate
      ⟨2, ⟨4096, 2000000, 800, 600, 800, .Rgb⟩, ⟨8192, 128, 32, 1, 4, []⟩⟩).1
      (by decide),
   (C9_version_gate
      ⟨1, ⟨4096, 2000000, 800, 600, 800, .Rgb⟩, ⟨8192, 128, 32, 1, 4, []⟩⟩).2
      (by decide)⟩

/-! ## Claim C10: shift-overflow guard in allocate_order -/

/-- C10: for every u8 order ≥ 64, `allocate_order` returns
`UnsupportedFrameCount {frames := 0}` (the `checked_shl` of `1u64` yields
`None`), and the allocator state — in particular its free and reserved
lists — is unchanged. -/
theorem C10_shift_overflow_guard (a : PhysicalAllocator) (order : Nat)
    (h64 : 64 ≤ order) (_h255 : order ≤ 255) :
    a.allocate_order order = (.error (.UnsupportedFrameCount 0), a) ∧
    (a.allocate_order order).2.free = a.free ∧
    (a.allocate_order order).2.reserved = a.reserved := by
  have hshl : checkedShl1 order = none := by
    unfold checkedShl1
    simp [Nat.not_lt.mpr h64]
  refine ⟨?_, ?_, ?_⟩ <;> simp [PhysicalAllocator.allocate_order, hshl]

/-- C10, witness at order 64 on a one-run allocator. -/
theorem C10_witness :
    (PhysicalAllocator.allocate_order
        ⟨⟨100, 32, 32, 1, 1, []⟩, ⟨[some ⟨4096, 1⟩]⟩, ⟨[]⟩⟩ 64) =
      (.error (.UnsupportedFrameCount 0),
        ⟨⟨100, 32, 32, 1, 1, []⟩, ⟨[some ⟨4096, 1⟩]⟩, ⟨[]⟩⟩) :=
  (C10_shift_overflow_guard
    ⟨⟨100, 32, 32, 1, 1, []⟩, ⟨[some ⟨4096, 1⟩]⟩, ⟨[]⟩⟩ 64
    (by decide) (by decide)).1

/-- Definitional unfolding of one `mapRangeGo` step. -/
lemma mapRangeGo_succ (fuel : Nat) (st : PagingModel) (addr stop_aligned : Nat) :
    mapRangeGo (fuel + 1) st addr stop_aligned =
      mapRangeBody st addr stop_aligned
        (fun st2 addr1 => mapRangeGo fuel st2 addr1 stop_aligned) := rfl

/-! ## Claim C5: gap reporting by alloc_contiguous -/

/-- Head unfolding of `List.range'` with an explicit successor length. -/
lemma range'_head (s n step : Nat) :
    List.range' s (n + 1) step = s :: List.range' (s + step) n step := rfl

/-- C5, counterexample (the repository's own `alloc_contiguous_detects_gaps`
scenario): two conventional descriptors of 2 pages at 4096 and 20480, and a
request for 3 frames.  The recorded gap is
`NonContiguous {expected := 12288, found := 20480}` where 12288 is the byte
end of the first region — not `end_of_first + 4096 = 16384` as the claim
states. -/
theorem C5_counterexample :
    alloc_contiguous
        ⟨100, 64, 32, 1, 2,
          [⟨CONVENTIONAL, 4096, 2⟩, ⟨CONVENTIONAL, 20480, 2⟩]⟩ [] 3 =
      .error (.NonContiguous 12288 20480) ∧
    (12288 : Nat) ≠ 12288 + 4096 := by
  constructor
  · decide
  · decide

/-- C5, amended: for a memory map of two conventional descriptors
`(p1, n1 pages)` and `(p2, n2 pages)` with aligned starts at or above 4096,
separated by a gap (`p1 + n1·4096 < p2`), with the second too small to
satisfy the request on its own (`n2 ≤ n1`) and no byte-range overflow, a
fresh cursor's `alloc_contiguous (n1 + 1)` fails with
`NonContiguous {expected, found}` where `expected = p1 + n1·4096` is the
byte END of the first region (not `end + 4096` as the claim states) and
`found = p2` is the start of the second. -/
theorem C5_gap_reporting_amended (dp ms es ev : Nat) (p1 n1 p2 n2 : Nat)
    (ha1 : p1 % 4096 = 0) (hp1 : 4096 ≤ p1) (hn1 : 1 ≤ n1)
    (ha2 : p2 % 4096 = 0) (hn2 : 1 ≤ n2) (hle : n2 ≤ n1)
    (hgap : p1 + n1 * 4096 < p2)
    (hb : p2 + n2 * 4096 < U64) :
    alloc_contiguous
        ⟨dp, ms, es, ev, 2, [⟨CONVENTIONAL, p1, n1⟩, ⟨CONVENTIONAL, p2, n2⟩]⟩
        [] (n1 + 1) =
      .error (.NonContiguous (p1 + n1 * 4096) p2) := by
  obtain ⟨m, rfl⟩ : ∃ m, n1 = m + 1 := ⟨n1 - 1, by omega⟩
  obtain ⟨k, rfl⟩ : ∃ k, n2 = k + 1 := ⟨n2 - 1, by omega⟩
  have hU : U64 = 2 ^ 64 := rfl
  have hb1 : p1 + (m + 1) * 4096 < U64 := by omega
  have hp2 : 4096 ≤ p2 := by omega
  have hstop1 : p1 + (m + 1) * 4096 + 4096 ≤ U64 := by rw [hU] at hb ⊢; omega
  have hstop2 : p2 + (k + 1) * 4096 + 4096 ≤ U64 := by
    rw [hU] at hb ⊢
    omega
  have hframes : usableFrames
      ⟨dp, ms, es, ev, 2, [⟨CONVENTIONAL, p1, m + 1⟩, ⟨CONVENTIONAL, p2, k + 1⟩]⟩
      [] = List.range' p1 (m + 1) 4096 ++ List.range' p2 (k + 1) 4096 := by
    unfold usableFrames mmIter
    simp only [List.take, List.flatMap_cons, List.flatMap_nil]
    rw [descRange_conv p1 (m + 1) ha1 hp1 (by omega) hb1,
      descRange_conv p2 (k + 1) ha2 hp2 (by omega) hb]
    dsimp only
    rw [framesInRange_no_resv (p1 + (m + 1) * 4096) hstop1 _ p1
        (by simp only [show FRAME_SIZE = 4096 from rfl]; omega),
      framesInRange_no_resv (p2 + (k + 1) * 4096) hstop2 _ p2
        (by simp only [show FRAME_SIZE = 4096 from rfl]; omega)]
    rw [show (p1 + (m + 1) * 4096 - p1 + 4095) / 4096 = m + 1 by omega,
      show (p2 + (k + 1) * 4096 - p2 + 4095) / 4096 = k + 1 by omega]
    simp
  unfold alloc_contiguous
  rw [if_neg (by omega), hframes]
  rw [range'_head p1 m 4096, List.cons_append, allocContiguousGo_cons]
  have hupd1 : RunTracker.update ⟨m + 1 + 1, none, 0, 0⟩ p1 none
      = (⟨m + 1 + 1, some p1, p1, 1⟩, none) := by
    unfold RunTracker.update RunTracker.restart
    rfl
  rw [hupd1]
  dsimp only
  rw [if_neg (by omega)]
  rw [allocContiguousGo_chunk (m + 1 + 1) p1 m p1 1 none _ (by omega) (by omega)]
  rw [range'_head p2 k 4096, allocContiguousGo_cons]
  have hadd1 : checkedAdd (p1 + m * 4096) FRAME_SIZE
      = some (p1 + m * 4096 + 4096) := by
    unfold checkedAdd
    have hF : FRAME_SIZE = 4096 := rfl
    rw [hF, if_pos (by rw [hU] at hb ⊢; omega)]
  have hupd2 : RunTracker.update ⟨m + 1 + 1, some p1, p1 + m * 4096, 1 + m⟩ p2
        none
      = (⟨m + 1 + 1, some p2, p2, 1⟩,
          some (p1 + m * 4096 + 4096, p2)) := by
    unfold RunTracker.update RunTracker.restart
    rw [hadd1]
    dsimp only
    rw [if_neg (by omega)]
    rfl
  rw [hupd2]
  dsimp only
  rw [if_neg (by omega)]
  rw [← List.append_nil (List.range' (p2 + 4096) k 4096)]
  rw [allocContiguousGo_chunk (m + 1 + 1) p2 k p2 1
    (some (p1 + m * 4096 + 4096, p2)) [] (by omega) (by omega)]
  rw [allocContiguousGo_nil]
  dsimp only
  rw [show p1 + m * 4096 + 4096 = p1 + (m + 1) * 4096 by ring]

/-- C5, witness for the amended theorem at the repository test input. -/
theorem C5_witness :
    alloc_contiguous
        ⟨100, 64, 32, 1, 2,
          [⟨CONVENTIONAL, 4096, 2⟩, ⟨CONVENTIONAL, 20480, 2⟩]⟩ [] 3 =
      .error (.NonContiguous 12288 20480) := by
  have h := C5_gap_reporting_amended 100 64 32 1 4096 2 20480 2
    (by norm_num) (by norm_num) (by norm_num) (by norm_num) (by norm_num)
    (by norm_num) (by norm_num) (by norm_num [U64])
  norm_num at h
  exact h

/-! ## Claim C7: early frame cursor enumeration -/

/-- A `List.range'` with 4 KiB step, written as a map over `List.range`. -/
lemma range'_as_map (n : Nat) :
    ∀ s, List.range' s n 4096 = (List.range n).map (fun i => s + 4096 * i) := by
  induction n with
  | zero => intro s; simp
  | succ n ih =>
      intro s
      rw [range'_head, ih (s + 4096)]
      simp only [List.range_succ_eq_map, List.map_cons, List.map_map]
      have h2 : List.map ((fun i => s + 4096 * i) ∘ Nat.succ) (List.range n)
          = List.map (fun i => s + 4096 + 4096 * i) (List.range n) := by
        apply List.map_congr_left
        intro a _
        simp only [Function.comp_apply]
        omega
      rw [h2]
      simp

/-- A descriptor of a non-conventional memory type loads no frame range. -/
lemma descRange_nonconv (d : MemoryDescriptor) (h : d.typ ≠ CONVENTIONAL) :
    descRange d = none := by
  unfold descRange
  rw [if_pos h]

/-- C7, counterexample.  The claim quantifies over every page count
`n ≥ 1`; but for `n = 2^52` the byte size `n · 4096` overflows `u64`, the
cursor's `checked_mul` fails and the descriptor is skipped entirely, so the
cursor yields nothing — in particular not the claimed first address 4096. -/
theorem C7_counterexample :
    usableFrames ⟨100, 32, 32, 1, 1, [⟨CONVENTIONAL, 4096, 2 ^ 52⟩]⟩ [] = []
    ∧ (1 : Nat) ≤ 2 ^ 52
    ∧ ¬ (4096 ∈ usableFrames
          ⟨100, 32, 32, 1, 1, [⟨CONVENTIONAL, 4096, 2 ^ 52⟩]⟩ []) := by
  refine ⟨by decide, by decide, by decide⟩

/-- C7, amended: (a) for a single conventional descriptor of `n` pages at
physical start 4096 with `1 ≤ n` and no byte-size overflow (`n + 1 < 2^52`,
so that `4096 + n·4096` and the cursor stepping stay inside `u64`), and no
early reservations, the cursor yields exactly `4096·1, …, 4096·n` in
ascending order; (b) a leading descriptor of any non-conventional type
contributes no frames, for every memory map tail and reservation state. -/
theorem C7_enumeration_amended :
    (∀ dp ms es ev n, 1 ≤ n → n + 1 < 2 ^ 52 →
      usableFrames ⟨dp, ms, es, ev, 1, [⟨CONVENTIONAL, 4096, n⟩]⟩ []
        = (List.range n).map (fun i => 4096 * (i + 1))) ∧
    (∀ dp ms es ev (d : MemoryDescriptor) (rest : List MemoryDescriptor)
        (resv : List ReservedRegion), d.typ ≠ CONVENTIONAL →
      usableFrames ⟨dp, ms, es, ev, rest.length + 1, d :: rest⟩ resv
        = usableFrames ⟨dp, ms, es, ev, rest.length, rest⟩ resv) := by
  constructor
  · intro dp ms es ev n hn hbig
    have hU : U64 = 2 ^ 64 := rfl
    have hb : 4096 + n * 4096 < U64 := by rw [hU]; omega
    have hstop : 4096 + n * 4096 + 4096 ≤ U64 := by rw [hU]; omega
    unfold usableFrames mmIter
    simp only [List.take, List.flatMap_cons, List.flatMap_nil]
    rw [descRange_conv 4096 n (by norm_num) (by norm_num) hn hb]
    dsimp only
    rw [framesInRange_no_resv (4096 + n * 4096) hstop _ 4096
      (by simp only [show FRAME_SIZE = 4096 from rfl]; omega)]
    rw [show (4096 + n * 4096 - 4096 + 4095) / 4096 = n by omega]
    rw [range'_as_map n 4096]
    simp only [List.append_nil]
    apply List.map_congr_left
    intro a _
    ring
  · intro dp ms es ev d rest resv h
    unfold usableFrames mmIter
    dsimp only
    rw [List.take_succ_cons, List.take_length, List.flatMap_cons,
      descRange_nonconv d h]
    simp

/-- C7, witness: part (a) at `n = 3` (the repository's
`alloc_returns_frames_in_sequence` scenario) and part (b) for a loader-code
descriptor in front of a conventional one. -/
theorem C7_witness :
    (usableFrames ⟨100, 32, 32, 1, 1, [⟨CONVENTIONAL, 4096, 3⟩]⟩ []
      = (List.range 3).map (fun i => 4096 * (i + 1))) ∧
    (usableFrames ⟨100, 32, 32, 1, 2,
        [⟨1, 4096, 2⟩, ⟨CONVENTIONAL, 20480, 1⟩]⟩ []
      = usableFrames ⟨100, 32, 32, 1, 1, [⟨CONVENTIONAL, 20480, 1⟩]⟩ []) :=
  ⟨C7_enumeration_amended.1 100 32 32 1 3 (by decide) (by decide),
   C7_enumeration_amended.2 100 32 32 1 ⟨1, 4096, 2⟩
     [⟨CONVENTIONAL, 20480, 1⟩] [] (by decide)⟩

/-! ## Claim C8: the zero page and the early frame cursor -/

/-- C8, evaluation at the failing input.  The claim — no yielded frame
address is ever below 4096, for every memory map — is the code's clear
intent (the cursor clamps range starts to `FRAME_SIZE` and
`aligned_reservation_end` maxes with `FRAME_SIZE`), but the cursor advance
`*start += FRAME_SIZE` is an unchecked u64 add: for a conventional
descriptor covering `[2^64 - 4097, 2^64 - 1)` the aligned start is
`2^64 - 4096`, the advance wraps to 0, and the zero page is yielded as the
second frame. -/
theorem C8_zero_page_failing_input :
    (usableFrames ⟨100, 32, 32, 1, 1, [⟨CONVENTIONAL, 2 ^ 64 - 4097, 1⟩]⟩
        []).take 2 = [2 ^ 64 - 4096, 0] ∧
    (0 : Nat) ∈ usableFrames
        ⟨100, 32, 32, 1, 1, [⟨CONVENTIONAL, 2 ^ 64 - 4097, 1⟩]⟩ [] ∧
    (0 : Nat) < 4096 := by
  have ht : (usableFrames ⟨100, 32, 32, 1, 1, [⟨CONVENTIONAL, 2 ^ 64 - 4097, 1⟩]⟩
      []).take 2 = [2 ^ 64 - 4096, 0] := by rfl
  refine ⟨ht, ?_, by norm_num⟩
  have hmem : (0 : Nat) ∈ (usableFrames
      ⟨100, 32, 32, 1, 1, [⟨CONVENTIONAL, 2 ^ 64 - 4097, 1⟩]⟩ []).take 2 := by
    rw [ht]
    simp
  exact List.take_subset 2 _ hmem

/-! ## Claim C6: unsupported addresses in the 2 MiB identity mapper -/

/-- C6, counterexample.  The claim states that mapping a range whose start is
at or above `2^39` fails with `UnsupportedAddress(start)` and never writes a
page-directory entry for such an address.  Both parts fail on the source:
(a) for the unaligned start `2^39 + 4096` the error payload is the 2 MiB
aligned-down address `2^39`, not the start; (b) a range starting at `2^48`
has PML4-index bits `(addr >> 39) & 0x1ff = 0`, is not rejected at all, and
a present 2 MiB page-directory entry for `2^48` is written. -/
theorem C6_counterexample :
    ((map_identity_range_2mib ⟨List.replicate 512 0, [], [4096]⟩
        (2 ^ 39 + 4096) (2 ^ 39 + 8192)).1 =
      .error (.UnsupportedAddress (2 ^ 39)) ∧
      (2 ^ 39 : Nat) ≠ 2 ^ 39 + 4096) ∧
    ((map_identity_range_2mib ⟨List.replicate 512 0, [], [4096]⟩
        (2 ^ 48) (2 ^ 48 + 1)).1 = .ok () ∧
      (tableLookup (map_identity_range_2mib ⟨List.replicate 512 0, [], [4096]⟩
          (2 ^ 48) (2 ^ 48 + 1)).2.tables 4096).getD 0 0 =
        (2 ^ 48 : Nat) + 131 ∧
      (2 ^ 48 : Nat) + 131 ≠ 0) := by
  refine ⟨⟨?_, by decide⟩, ⟨?_, ?_, by decide⟩⟩ <;> decide

/-- C6, amended: for a nonempty requested range whose start lies in
`[2^39, 2^48)` (so that the nonzero PML4 index is actually visible in the
nine bits the source inspects) and whose end does not overflow the 2 MiB
align-up, the installer fails with `UnsupportedAddress` carrying the 2 MiB
aligned-down start, before writing any page-directory entry (the state is
returned unchanged).  Starts at or above `2^48` whose bits 39–47 are zero
are not rejected. -/
theorem C6_unsupported_address_amended (st : PagingModel) (start stop : Nat)
    (hlow : 2 ^ 39 ≤ start) (hhigh : start < 2 ^ 48) (hlt : start < stop)
    (hstop : stop + (HUGE_PAGE_SIZE - 1) < U64) :
    map_identity_range_2mib st start stop =
      (.error (.UnsupportedAddress (alignDownTo start HUGE_PAGE_SIZE)), st) := by
  have hH : HUGE_PAGE_SIZE = 2097152 := rfl
  have hsa_le : alignDownTo start HUGE_PAGE_SIZE ≤ start := Nat.div_mul_le_self _ _
  have hq : 2 ^ 18 ≤ start / HUGE_PAGE_SIZE := by
    rw [hH]
    have h2 : (2 ^ 39 : Nat) / 2097152 ≤ start / 2097152 := Nat.div_le_div_right hlow
    norm_num at h2
    omega
  have hsa_ge : 2 ^ 39 ≤ alignDownTo start HUGE_PAGE_SIZE := by
    unfold alignDownTo
    calc (2 ^ 39 : Nat) = 2 ^ 18 * 2097152 := by norm_num
    _ ≤ start / HUGE_PAGE_SIZE * 2097152 := Nat.mul_le_mul_right _ hq
    _ = start / HUGE_PAGE_SIZE * HUGE_PAGE_SIZE := by rw [hH]
  have hmod : (stop + (HUGE_PAGE_SIZE - 1)) % U64 = stop + (HUGE_PAGE_SIZE - 1) :=
    Nat.mod_eq_of_lt hstop
  have hea_ge : stop ≤ alignUpTo stop HUGE_PAGE_SIZE := by
    unfold alignUpTo
    rw [hmod, hH]
    have hdm := Nat.div_add_mod (stop + (2097152 - 1)) 2097152
    have hmlt : (stop + (2097152 - 1)) % 2097152 < 2097152 :=
      Nat.mod_lt _ (by norm_num)
    omega
  have hshift : alignDownTo start HUGE_PAGE_SIZE >>> 39
      = alignDownTo start HUGE_PAGE_SIZE / 2 ^ 39 :=
    Nat.shiftRight_eq_div_pow _ 39
  have h1le : 1 ≤ alignDownTo start HUGE_PAGE_SIZE / 2 ^ 39 :=
    (Nat.one_le_div_iff (by norm_num)).mpr hsa_ge
  have hlt512 : alignDownTo start HUGE_PAGE_SIZE / 2 ^ 39 < 512 := by
    rw [Nat.div_lt_iff_lt_mul (by norm_num : (0 : Nat) < 2 ^ 39)]
    calc alignDownTo start HUGE_PAGE_SIZE ≤ start := hsa_le
    _ < 2 ^ 48 := hhigh
    _ ≤ 512 * 2 ^ 39 := by norm_num
  have h511 : (0x1ff : Nat) = 2 ^ 9 - 1 := by norm_num
  have hne : (alignDownTo start HUGE_PAGE_SIZE >>> 39) &&& 0x1ff ≠ 0 := by
    rw [hshift, h511, Nat.and_pow_two_sub_one_eq_mod]
    have : alignDownTo start HUGE_PAGE_SIZE / 2 ^ 39 % 2 ^ 9
        = alignDownTo start HUGE_PAGE_SIZE / 2 ^ 39 :=
      Nat.mod_eq_of_lt (by norm_num at hlt512 ⊢; omega)
    omega
  unfold map_identity_range_2mib
  rw [if_neg (by omega), mapRangeGo_succ]
  unfold mapRangeBody
  rw [if_neg (by omega), if_pos hne]

/-- C6, witness for the amended theorem at start `2^39 + 4096`. -/
theorem C6_witness :
    map_identity_range_2mib ⟨List.replicate 512 0, [], [4096]⟩
        (2 ^ 39 + 4096) (2 ^ 39 + 8192) =
      (.error (.UnsupportedAddress
          (alignDownTo (2 ^ 39 + 4096) HUGE_PAGE_SIZE)),
        ⟨List.replicate 512 0, [], [4096]⟩) :=
  C6_unsupported_address_amended ⟨List.replicate 512 0, [], [4096]⟩
    (2 ^ 39 + 4096) (2 ^ 39 + 8192) (by norm_num) (by norm_num) (by norm_num)
    (by norm_num [HUGE_PAGE_SIZE, U64])

/-! ## Claim C3: allocator state invariant -/

/-- C3, counterexample.  The claimed invariant is not unconditional: (i)
`from_memory_map` pushes conventional descriptors without any alignment
check, so a descriptor starting at 123 yields an allocator whose free run
starts at 123, not a multiple of 4096; (ii) `free` never consults the
reserved list, so freeing a frame inside a recorded reservation succeeds
and leaves a free run that overlaps the reservation. -/
theorem C3_counterexample :
    (PhysicalAllocator.from_memory_map ⟨0, 32, 32, 1, 1, [⟨7, 123, 1⟩]⟩ [] 2 2
       = .ok ⟨⟨0, 32, 32, 1, 1, [⟨7, 123, 1⟩]⟩,
              ⟨[some ⟨123, 1⟩, none]⟩, ⟨[none, none]⟩⟩ ∧
     (⟨123, 1⟩ : PhysFrame) ∈ runsOf
       (⟨[some ⟨123, 1⟩, none]⟩ : FrameRunList).entries ∧
     (123 % 4096 = 0 → False)) ∧
    (Invariant ⟨⟨0, 32, 32, 1, 1, [⟨7, 123, 1⟩]⟩,
       ⟨[some ⟨16384, 1⟩, none]⟩, ⟨[some ⟨4096, 8192⟩, none]⟩⟩ ∧
     PhysicalAllocator.freeFrame
       ⟨⟨0, 32, 32, 1, 1, [⟨7, 123, 1⟩]⟩,
        ⟨[some ⟨16384, 1⟩, none]⟩, ⟨[some ⟨4096, 8192⟩, none]⟩⟩ ⟨4096, 1⟩
       = .ok ⟨⟨0, 32, 32, 1, 1, [⟨7, 123, 1⟩]⟩,
              ⟨[some ⟨16384, 1⟩, some ⟨4096, 1⟩]⟩,
              ⟨[some ⟨4096, 8192⟩, none]⟩⟩ ∧
     ¬ (∀ f ∈ runsOf (⟨[some ⟨16384, 1⟩, some ⟨4096, 1⟩]⟩ :
          FrameRunList).entries,
        ∀ r ∈ regionsOf (⟨[some ⟨4096, 8192⟩, none]⟩ : ReservedList),
          frDisjointR f r)) := by
  refine ⟨⟨by decide, by decide, by decide⟩, by decide, by decide, by decide⟩

/-- C3, amended.  The allocator state invariant — no two stored free runs
overlap, every free run is nonempty with a 4 KiB-aligned start and an end
below `2^64`, every recorded reservation is nonempty, and every free run's
byte interval is disjoint from every reservation's — (a) is established by
`from_memory_map` PROVIDED the runs of the stored conventional descriptors
are themselves pairwise non-overlapping and well formed (the source checks
neither), (b) is preserved by every successful `allocate_order`, (c) is
preserved by a successful `free` PROVIDED the freed frame avoids every
recorded reservation (the source does not check this), and (d) is preserved
by every successful `reserve`. -/
theorem C3_invariants_amended :
    (∀ (map : MemoryMap) (resv : List ReservedRegion) (fs rs : Nat)
       (a : PhysicalAllocator),
       PhysicalAllocator.from_memory_map map resv fs rs = .ok a →
       NoOv (convFrames (mmIter map)) →
       (∀ f ∈ convFrames (mmIter map), ValidRun f) →
       Invariant a) ∧
    (∀ (a : PhysicalAllocator) (order : Nat) (f : PhysFrame)
       (a1 : PhysicalAllocator),
       Invariant a → a.allocate_order order = (.ok f, a1) → Invariant a1) ∧
    (∀ (a : PhysicalAllocator) (f : PhysFrame) (a1 : PhysicalAllocator),
       Invariant a → (∀ r ∈ regionsOf a.reserved, frDisjointR f r) →
       a.freeFrame f = .ok a1 → Invariant a1) ∧
    (∀ (a : PhysicalAllocator) (region : ReservedRegion)
       (a1 : PhysicalAllocator),
       Invariant a → a.reserve region = .ok a1 → Invariant a1) :=
  ⟨fun _ _ _ _ _ h hcv hvv => fromMemoryMap_invariant h hcv hvv,
   fun _ _ _ _ hI h => allocate_order_invariant hI h,
   fun _ _ _ hI hfd h => freeFrame_invariant hI hfd h,
   fun _ _ _ hI h => reserve_invariant hI h⟩

/-- C3, witness: a concrete run through all four operations, with every
hypothesis checked by evaluation and every invariant delivered by the
theorem. -/
theorem C3_witness :
    (PhysicalAllocator.from_memory_map ⟨0, 32, 32, 1, 1, [⟨7, 4096, 4⟩]⟩ [] 4 2
       = .ok ⟨⟨0, 32, 32, 1, 1, [⟨7, 4096, 4⟩]⟩,
              ⟨[some ⟨4096, 4⟩, none, none, none]⟩, ⟨[none, none]⟩⟩) ∧
    Invariant ⟨⟨0, 32, 32, 1, 1, [⟨7, 4096, 4⟩]⟩,
      ⟨[some ⟨4096, 4⟩, none, none, none]⟩, ⟨[none, none]⟩⟩ ∧
    (PhysicalAllocator.allocate_order
       ⟨⟨0, 32, 32, 1, 1, [⟨7, 4096, 4⟩]⟩,
        ⟨[some ⟨4096, 4⟩, none, none, none]⟩, ⟨[none, none]⟩⟩ 0
       = (.ok ⟨4096, 1⟩,
          ⟨⟨0, 32, 32, 1, 1, [⟨7, 4096, 4⟩]⟩,
           ⟨[some ⟨8192, 3⟩, none, none, none]⟩, ⟨[none, none]⟩⟩)) ∧
    Invariant ⟨⟨0, 32, 32, 1, 1, [⟨7, 4096, 4⟩]⟩,
      ⟨[some ⟨8192, 3⟩, none, none, none]⟩, ⟨[none, none]⟩⟩ ∧
    (PhysicalAllocator.freeFrame
       ⟨⟨0, 32, 32, 1, 1, [⟨7, 4096, 4⟩]⟩,
        ⟨[some ⟨8192, 3⟩, none, none, none]⟩, ⟨[none, none]⟩⟩ ⟨4096, 1⟩
       = .ok ⟨⟨0, 32, 32, 1, 1, [⟨7, 4096, 4⟩]⟩,
              ⟨[some ⟨8192, 3⟩, some ⟨4096, 1⟩, none, none]⟩,
              ⟨[none, none]⟩⟩) ∧
    Invariant ⟨⟨0, 32, 32, 1, 1, [⟨7, 4096, 4⟩]⟩,
      ⟨[some ⟨8192, 3⟩, some ⟨4096, 1⟩, none, none]⟩, ⟨[none, none]⟩⟩ ∧
    (PhysicalAllocator.reserve
       ⟨⟨0, 32, 32, 1, 1, [⟨7, 4096, 4⟩]⟩,
        ⟨[some ⟨8192, 3⟩, some ⟨4096, 1⟩, none, none]⟩, ⟨[none, none]⟩⟩
       ⟨4096, 8192⟩
       = .ok ⟨⟨0, 32, 32, 1, 1, [⟨7, 4096, 4⟩]⟩,
              ⟨[some ⟨8192, 3⟩, none, none, none]⟩,
              ⟨[some ⟨4096, 8192⟩, none]⟩⟩) ∧
    Invariant ⟨⟨0, 32, 32, 1, 1, [⟨7, 4096, 4⟩]⟩,
      ⟨[some ⟨8192, 3⟩, none, none, none]⟩, ⟨[some ⟨4096, 8192⟩, none]⟩⟩ :=
  ⟨by decide,
   C3_invariants_amended.1 ⟨0, 32, 32, 1, 1, [⟨7, 4096, 4⟩]⟩ [] 4 2
     ⟨⟨0, 32, 32, 1, 1, [⟨7, 4096, 4⟩]⟩,
      ⟨[some ⟨4096, 4⟩, none, none, none]⟩, ⟨[none, none]⟩⟩
     (by decide) (by decide) (by decide),
   by decide,
   C3_invariants_amended.2.1
     ⟨⟨0, 32, 32, 1, 1, [⟨7, 4096, 4⟩]⟩,
      ⟨[some ⟨4096, 4⟩, none, none, none]⟩, ⟨[none, none]⟩⟩ 0 ⟨4096, 1⟩
     ⟨⟨0, 32, 32, 1, 1, [⟨7, 4096, 4⟩]⟩,
      ⟨[some ⟨8192, 3⟩, none, none, none]⟩, ⟨[none, none]⟩⟩
     (by decide) (by decide),
   by decide,
   C3_invariants_amended.2.2.1
     ⟨⟨0, 32, 32, 1, 1, [⟨7, 4096, 4⟩]⟩,
      ⟨[some ⟨8192, 3⟩, none, none, none]⟩, ⟨[none, none]⟩⟩ ⟨4096, 1⟩
     ⟨⟨0, 32, 32, 1, 1, [⟨7, 4096, 4⟩]⟩,
      ⟨[some ⟨8192, 3⟩, some ⟨4096, 1⟩, none, none]⟩, ⟨[none, none]⟩⟩
     (by decide) (by decide) (by decide),
   by decide,
   C3_invariants_amended.2.2.2
     ⟨⟨0, 32, 32, 1, 1, [⟨7, 4096, 4⟩]⟩,
      ⟨[some ⟨8192, 3⟩, some ⟨4096, 1⟩, none, none]⟩, ⟨[none, none]⟩⟩
     ⟨4096, 8192⟩
     ⟨⟨0, 32, 32, 1, 1, [⟨7, 4096, 4⟩]⟩,
      ⟨[some ⟨8192, 3⟩, none, none, none]⟩, ⟨[some ⟨4096, 8192⟩, none]⟩⟩
     (by decide) (by decide)⟩

end Oxide
